import Mathlib

/-!
Checkers rules engine (`src/main.cpp`): a shallow embedding

The C++ program keeps the whole game in one `Board` object.  Here the object is a
record, every member function is a pure function of that record, and a thrown
`std::invalid_argument` is an `Except.error` carrying a tag for the message.

Modelling conventions.

* `int` is `Int`.  Every coordinate the program computes is within a few units of
  the range `0..7` and the counters are bounded by the number of pieces, so no
  arithmetic wraps.
* `std::string mBoard` only ever holds the five tile constants, so a tile is a
  value of the five-constructor type `Piece`; the string has the fixed length
  `SIZE * SIZE`, which the type `Grid` records.
* `std::set<Vector>` with the comparison `Vector::operator<` is a list kept in
  increasing order.  `setInsert` is the unique insertion of an ordered container:
  the key is dropped when the container already holds an element that is neither
  smaller nor greater than it.
-/

namespace Checkers

/-! ## Vector -/

/-- The `struct Vector` of the source: a pair of `int`s. -/
structure Vector where
  x : Int
  y : Int
deriving DecidableEq, Repr

namespace Vector

/-- Addition, `Vector::operator+`. -/
def add (a b : Vector) : Vector := ⟨a.x + b.x, a.y + b.y⟩

/-- Subtraction, `Vector::operator-`. -/
def sub (a b : Vector) : Vector := ⟨a.x - b.x, a.y - b.y⟩

/-- Scaling, `Vector::operator*(int factor)`. -/
def scale (a : Vector) (factor : Int) : Vector := ⟨a.x * factor, a.y * factor⟩

/-- Comparison `Vector::operator<`: `x < other.x && y < other.y`. -/
def less (a b : Vector) : Bool := decide (a.x < b.x) && decide (a.y < b.y)

instance : Add Vector := ⟨add⟩
instance : Sub Vector := ⟨sub⟩

end Vector

/-! ## Constants -/

namespace Direction
def UL : Int := 0
def UR : Int := 1
def DL : Int := 2
def DR : Int := 3
def MAX : Int := 4
end Direction

def SIZE : Int := 8
def PLAYERB : Int := 0
def PLAYERW : Int := 1

/-- The tile constants `EMPTY`, `WHITE`, `BLACK`, `WHITE_KING`, `BLACK_KING`. -/
inductive Piece where
  | EMPTY
  | WHITE
  | BLACK
  | WHITE_KING
  | BLACK_KING
deriving DecidableEq, Repr

open Piece

/-- The table `Board::DIR`, indexed by direction; the program reads it only after
checking `0 <= dir < Direction::MAX`. -/
def DIR (dir : Int) : Vector :=
  if dir = 0 then ⟨-1, -1⟩
  else if dir = 1 then ⟨1, -1⟩
  else if dir = 2 then ⟨-1, 1⟩
  else if dir = 3 then ⟨1, 1⟩
  else ⟨0, 0⟩

/-! ## std::set<Vector> -/

/-- Unique insertion into the ordered container: walk up the increasing list; the
key goes in front of the first element it is smaller than, and is dropped at the
first element it is equivalent to (neither `k < e` nor `e < k`). -/
def setInsert (k : Vector) : List Vector → List Vector
  | [] => [k]
  | e :: rest =>
    if k.less e then k :: e :: rest
    else if e.less k then e :: setInsert k rest
    else e :: rest

/-- The range insertion `dst.insert(src.begin(), src.end())`. -/
def setInsertRange (dst src : List Vector) : List Vector :=
  src.foldl (fun acc j => setInsert j acc) dst

/-! ## Board state -/

/-- The 64 tiles of `mBoard`, row after row. -/
structure Grid where
  cells : List Piece
  size_eq : cells.length = 64
deriving DecidableEq

/-- The data members of `class Board`. -/
structure Board where
  mForcedJumps : List Vector
  mBoard : Grid
  mTurn : Int
  mVictor : Int
  mBlackCaptured : Int
  mWhiteCaptured : Int
deriving DecidableEq

/-- The thrown `std::invalid_argument`, one constructor per message. -/
inductive MoveError where
  /-- Message "Start position is out of bounds." -/
  | startOutOfBounds
  /-- Message "Cannot move this piece." -/
  | cannotMovePiece
  /-- Message "Movement is invalid." -/
  | movementInvalid
  /-- Message "End position is invalid." -/
  | endInvalid
  /-- Message "Cannot make this jump." -/
  | cannotJump
  /-- Message "Must jump over (one of) ...", with the tiles it lists. -/
  | mustJump (jumps : List Vector)
  /-- Message "Movement is invalid for red." -/
  | invalidForRed
  /-- Message "Movement is invalid for black." -/
  | invalidForBlack
deriving DecidableEq, Repr

/-- The outcome of a call that either returns or throws. -/
abbrev Outcome := Except MoveError Unit

instance : DecidableEq Outcome := fun a b =>
  match a, b with
  | .ok _, .ok _ => isTrue rfl
  | .error e, .error f =>
    if h : e = f then isTrue (by rw [h]) else isFalse (fun hh => h (by cases hh; rfl))
  | .ok _, .error _ => isFalse (fun hh => by cases hh)
  | .error _, .ok _ => isFalse (fun hh => by cases hh)

/-- The index `y * SIZE + x` of `operator()`. -/
def tileIndex (x y : Int) : Int := y * SIZE + x

/-- Read `(*this)(x, y)`.  An index outside the string is undefined in the source
(the program guards every read by `IsInBounds`); the model reads `EMPTY` there. -/
def Grid.read (g : Grid) (x y : Int) : Piece :=
  if 0 ≤ tileIndex x y then g.cells.getD (tileIndex x y).toNat EMPTY else EMPTY

/-- Write `(*this)(x, y) = v`. -/
def Grid.write (g : Grid) (x y : Int) (v : Piece) : Grid :=
  if 0 ≤ tileIndex x y then
    ⟨g.cells.set (tileIndex x y).toNat v, by rw [List.length_set]; exact g.size_eq⟩
  else g

/-- Read `(*this)[pos]`. -/
def Board.tile (s : Board) (pos : Vector) : Piece := s.mBoard.read pos.x pos.y

/-- Write `(*this)[pos] = v`. -/
def Board.setTile (s : Board) (pos : Vector) (v : Piece) : Board :=
  { s with mBoard := s.mBoard.write pos.x pos.y v }

/-- Member `Board::IsInBounds`. -/
def IsInBounds (pos : Vector) : Bool :=
  decide (pos.x ≥ 0) && decide (pos.y ≥ 0) && decide (pos.x < SIZE) && decide (pos.y < SIZE)

/-- Member `Board::GetPlayerForTile`. -/
def GetPlayerForTile (s : Board) (pos : Vector) : Int :=
  match s.tile pos with
  | WHITE => PLAYERW
  | WHITE_KING => PLAYERW
  | BLACK => PLAYERB
  | BLACK_KING => PLAYERB
  | EMPTY => -1

/-- The positions visited by `for y in 0..SIZE, for x in 0..SIZE`, row by row. -/
def allPositions : List Vector :=
  (List.range 8).flatMap fun (y : Nat) =>
    (List.range 8).map fun (x : Nat) => Vector.mk (Int.ofNat x) (Int.ofNat y)

/-- The directions visited by `for (dir = 0; dir < Direction::MAX; dir++)`. -/
def allDirections : List Int := [0, 1, 2, 3]

/-- Lines 272-286 of `ValidateMove`: origin, owner, shape of the move, destination,
jumped tile. -/
def validateBasic (s : Board) (pos : Vector) (dir count : Int) (player : Int) : Outcome :=
  if !IsInBounds pos then .error .startOutOfBounds
  else if GetPlayerForTile s pos ≠ player then .error .cannotMovePiece
  else if count > 2 ∨ count < 1 ∨ dir < 0 ∨ dir ≥ Direction.MAX then .error .movementInvalid
  else
    let dest := pos + (DIR dir).scale count
    if !IsInBounds dest || decide (s.tile dest ≠ EMPTY) then .error .endInvalid
    else if count = 2 ∧
        GetPlayerForTile s (pos + DIR dir) ≠ (if player = PLAYERW then PLAYERB else PLAYERW) then
      .error .cannotJump
    else .ok ()

/-- Lines 320-332 of `ValidateMove`: the `switch` on the moved piece. -/
def validateRank (s : Board) (pos : Vector) (dir : Int) : Outcome :=
  match s.tile pos with
  | WHITE => if dir ≠ Direction.DL ∧ dir ≠ Direction.DR then .error .invalidForRed else .ok ()
  | BLACK => if dir ≠ Direction.UL ∧ dir ≠ Direction.UR then .error .invalidForBlack else .ok ()
  | _ => .ok ()

/-- The call `ValidateMove(pos, dir, count, false, player)`: with `jump == false` the block
of lines 288-318 is skipped. -/
def ValidateMoveNoJump (s : Board) (pos : Vector) (dir count : Int) (player : Int) : Outcome :=
  match validateBasic s pos dir count player with
  | .error e => .error e
  | .ok _ => validateRank s pos dir

/-- Member `Board::GetJumps`: probes the four 2-step moves for `mTurn` and collects the
jumped tiles. -/
def GetJumps (s : Board) (pos : Vector) : List Vector :=
  allDirections.foldl
    (fun jumps dir =>
      match ValidateMoveNoJump s pos dir 2 s.mTurn with
      | .ok _ => setInsert (pos + DIR dir) jumps
      | .error _ => jumps)
    []

/-- Lines 290-305 of `ValidateMove`: the set `jumps`, a copy of `mForcedJumps`
that, when empty, is filled from every tile of `player`. -/
def jumpSet (s : Board) (player : Int) : List Vector :=
  if s.mForcedJumps.isEmpty then
    allPositions.foldl
      (fun jumps tmp =>
        if GetPlayerForTile s tmp ≠ player then jumps
        else setInsertRange jumps (GetJumps s tmp))
      s.mForcedJumps
  else s.mForcedJumps

/-- Lines 288-318 of `ValidateMove`: the mandatory-jump rule. -/
def validateJumpRule (s : Board) (pos : Vector) (dir count : Int) (player : Int) : Outcome :=
  let jumps := jumpSet s player
  if !jumps.isEmpty then
    if decide ((pos + DIR dir) ∉ jumps) || decide (count ≠ 2) then .error (.mustJump jumps)
    else .ok ()
  else .ok ()

/-- Member `Board::ValidateMove`. -/
def ValidateMove (s : Board) (pos : Vector) (dir count : Int) (jump : Bool) (player : Int) :
    Outcome :=
  match validateBasic s pos dir count player with
  | .error e => .error e
  | .ok _ =>
    match (if jump then validateJumpRule s pos dir count player else .ok ()) with
    | .error e => .error e
    | .ok _ => validateRank s pos dir

/-- Member `Board::GetValidMoves`. -/
def GetValidMoves (s : Board) (player : Int) : List (Vector × Int × Int) :=
  allPositions.flatMap fun pos =>
    if GetPlayerForTile s pos ≠ player then []
    else
      allDirections.flatMap fun i =>
        ([1, 2] : List Int).flatMap fun c =>
          match ValidateMove s pos i c true player with
          | .ok _ => [(pos, i, c)]
          | .error _ => []

/-- Member `Board::HasValidMoves`. -/
def HasValidMoves (s : Board) (player : Int) : Bool :=
  decide ((GetValidMoves s player).length > 0)

/-- Lines 190-191 of `Move`: the piece is copied to `end` and its tile cleared. -/
def movePiece (s : Board) (pos dest : Vector) : Board :=
  (s.setTile dest (s.tile pos)).setTile pos EMPTY

/-- Lines 195-199 of `Move`: the jumped piece is removed and counted. -/
def takePiece (s : Board) (mid : Vector) : Board :=
  let t := s.setTile mid EMPTY
  if t.mTurn = PLAYERW then { t with mBlackCaptured := t.mBlackCaptured + 1 }
  else { t with mWhiteCaptured := t.mWhiteCaptured + 1 }

/-- Lines 202-206 of `Move`: a piece that black moved to row 0, or white to row
`SIZE - 1`, is made a king. -/
def crown (s : Board) (dest : Vector) : Board :=
  let s4 := if dest.y = 0 ∧ s.mTurn = PLAYERB then s.setTile dest BLACK_KING else s
  if dest.y = SIZE - 1 ∧ s4.mTurn = PLAYERW then s4.setTile dest WHITE_KING else s4

/-- Lines 188-206 of `Move`: the piece goes to `end`, the jumped piece is taken
and counted, a man on its last row is crowned. -/
def relocate (s : Board) (pos : Vector) (dir count : Int) : Board :=
  let dest := pos + (DIR dir).scale count
  let s2 := movePiece s pos dest
  let s3 := if count = 2 then takePiece s2 (pos + DIR dir) else s2
  crown s3 dest

/-- Lines 215-220 of `Move`: the forced jumps are cleared, the turn passes, and the
victor is set when the player now to move has no valid move. -/
def passTurn (s : Board) : Board :=
  let s6 := { s with mForcedJumps := [] }
  let s7 := { s6 with mTurn := if s6.mTurn = PLAYERB then PLAYERW else PLAYERB }
  if !HasValidMoves s7 s7.mTurn then
    { s7 with mVictor := if s7.mTurn = PLAYERB then PLAYERW else PLAYERB }
  else s7

/-- Lines 188-221 of `Move`: what happens once `ValidateMove` has returned. -/
def applyMove (s : Board) (pos : Vector) (dir count : Int) : Board :=
  let dest := pos + (DIR dir).scale count
  let s5 := relocate s pos dir count
  let jumps := GetJumps s5 dest
  if count = 2 ∧ jumps.length ≠ 0 then { s5 with mForcedJumps := jumps }
  else passTurn s5

/-- Member `Board::Move`: the outcome of the call and the state it leaves.  The throw of
`ValidateMove` leaves the function before any member is written. -/
def Move (s : Board) (pos : Vector) (dir count : Int) : Outcome × Board :=
  match ValidateMove s pos dir count true s.mTurn with
  | .error e => (.error e, s)
  | .ok _ => (.ok (), applyMove s pos dir count)

/-- The tiles written by one of the two loops of the constructor: rows `ys`,
columns `y % 2, y % 2 + 2, ...` below `SIZE`. -/
def initTiles (ys : List Int) : List Vector :=
  ys.flatMap fun y => ([0, 2, 4, 6] : List Int).map fun k => ⟨y % 2 + k, y⟩

/-- Constructor `Board::Board()` together with the default member initialisers. -/
def Board.init : Board :=
  let blank : Board :=
    { mForcedJumps := []
      mBoard := ⟨List.replicate 64 EMPTY, by simp⟩
      mTurn := PLAYERB
      mVictor := -1
      mBlackCaptured := 0
      mWhiteCaptured := 0 }
  let s1 := (initTiles [0, 1, 2]).foldl (fun b p => b.setTile p WHITE) blank
  (initTiles [SIZE - 3, SIZE - 2, SIZE - 1]).foldl (fun b p => b.setTile p BLACK) s1

/-- The states the program can be in: the fresh board and whatever a sequence of
`Move` calls, accepted or rejected, leaves. -/
inductive Reachable : Board → Prop where
  | init : Reachable Board.init
  | move (s : Board) (pos : Vector) (dir count : Int) :
      Reachable s → Reachable (Move s pos dir count).2

/-- Replays a list of `Move` calls from a state. -/
def playMoves (s : Board) : List (Vector × Int × Int) → Board
  | [] => s
  | (pos, dir, count) :: rest => playMoves (Move s pos dir count).2 rest

/-! ## The same functions with every grid access checked

Each function below is the function of the same name above, written in `Option`:
a read or write of a tile whose position is not on the board (where the assertion
of `operator()` or the index into `mBoard` would fail) yields `none`, and `none`
propagates to the caller. -/

/-- Read `(*this)[pos]`, or `none` when `pos` is not on the board. -/
def readChecked (s : Board) (pos : Vector) : Option Piece :=
  if IsInBounds pos then some (s.tile pos) else none

/-- Write `(*this)[pos] = v`, or `none` when `pos` is not on the board. -/
def writeChecked (s : Board) (pos : Vector) (v : Piece) : Option Board :=
  if IsInBounds pos then some (s.setTile pos v) else none

/-- Checked `Board::GetPlayerForTile`. -/
def GetPlayerForTileChecked (s : Board) (pos : Vector) : Option Int := do
  let t ← readChecked s pos
  pure (match t with
    | WHITE => PLAYERW
    | WHITE_KING => PLAYERW
    | BLACK => PLAYERB
    | BLACK_KING => PLAYERB
    | EMPTY => -1)

/-- Checked lines 272-286 of `ValidateMove`.  The destination is read only when
`IsInBounds(end)` holds, as `||` evaluates its right operand only then. -/
def validateBasicChecked (s : Board) (pos : Vector) (dir count : Int) (player : Int) :
    Option Outcome := do
  if !IsInBounds pos then pure (.error .startOutOfBounds)
  else
    let owner ← GetPlayerForTileChecked s pos
    if owner ≠ player then pure (.error .cannotMovePiece)
    else if count > 2 ∨ count < 1 ∨ dir < 0 ∨ dir ≥ Direction.MAX then
      pure (.error .movementInvalid)
    else
      let dest := pos + (DIR dir).scale count
      if !IsInBounds dest then pure (.error .endInvalid)
      else
        let t ← readChecked s dest
        if t ≠ EMPTY then pure (.error .endInvalid)
        else if count = 2 then
          let jumped ← GetPlayerForTileChecked s (pos + DIR dir)
          if jumped ≠ (if player = PLAYERW then PLAYERB else PLAYERW) then
            pure (.error .cannotJump)
          else pure (.ok ())
        else pure (.ok ())

/-- Checked lines 320-332 of `ValidateMove`. -/
def validateRankChecked (s : Board) (pos : Vector) (dir : Int) : Option Outcome := do
  let t ← readChecked s pos
  pure (match t with
    | WHITE =>
      if dir ≠ Direction.DL ∧ dir ≠ Direction.DR then .error .invalidForRed else .ok ()
    | BLACK =>
      if dir ≠ Direction.UL ∧ dir ≠ Direction.UR then .error .invalidForBlack else .ok ()
    | _ => .ok ())

/-- Checked `ValidateMove(pos, dir, count, false, player)`. -/
def ValidateMoveNoJumpChecked (s : Board) (pos : Vector) (dir count : Int) (player : Int) :
    Option Outcome := do
  let r ← validateBasicChecked s pos dir count player
  match r with
  | .error e => pure (.error e)
  | .ok _ => validateRankChecked s pos dir

/-- Checked `Board::GetJumps`. -/
def GetJumpsChecked (s : Board) (pos : Vector) : Option (List Vector) :=
  allDirections.foldlM
    (fun jumps dir => do
      let r ← ValidateMoveNoJumpChecked s pos dir 2 s.mTurn
      pure (match r with
        | .ok _ => setInsert (pos + DIR dir) jumps
        | .error _ => jumps))
    []

/-- Checked lines 290-305 of `ValidateMove`. -/
def jumpSetChecked (s : Board) (player : Int) : Option (List Vector) :=
  if s.mForcedJumps.isEmpty then
    allPositions.foldlM
      (fun jumps tmp => do
        let owner ← GetPlayerForTileChecked s tmp
        if owner ≠ player then pure jumps
        else
          let found ← GetJumpsChecked s tmp
          pure (setInsertRange jumps found))
      s.mForcedJumps
  else pure s.mForcedJumps

/-- Checked lines 288-318 of `ValidateMove`. -/
def validateJumpRuleChecked (s : Board) (pos : Vector) (dir count : Int) (player : Int) :
    Option Outcome := do
  let jumps ← jumpSetChecked s player
  pure (if !jumps.isEmpty then
      if decide ((pos + DIR dir) ∉ jumps) || decide (count ≠ 2) then .error (.mustJump jumps)
      else .ok ()
    else .ok ())

/-- Checked `Board::ValidateMove`. -/
def ValidateMoveChecked (s : Board) (pos : Vector) (dir count : Int) (jump : Bool)
    (player : Int) : Option Outcome := do
  let r ← validateBasicChecked s pos dir count player
  match r with
  | .error e => pure (.error e)
  | .ok _ =>
    let j ← (if jump then validateJumpRuleChecked s pos dir count player else pure (.ok ()))
    match j with
    | .error e => pure (.error e)
    | .ok _ => validateRankChecked s pos dir

/-- Checked `Board::GetValidMoves`, with the `push_back` into `moves`. -/
def GetValidMovesChecked (s : Board) (player : Int) : Option (List (Vector × Int × Int)) :=
  allPositions.foldlM
    (fun moves pos => do
      let owner ← GetPlayerForTileChecked s pos
      if owner ≠ player then pure moves
      else
        allDirections.foldlM
          (fun moves i =>
            ([1, 2] : List Int).foldlM
              (fun moves c => do
                let r ← ValidateMoveChecked s pos i c true player
                pure (match r with
                  | .ok _ => moves ++ [(pos, i, c)]
                  | .error _ => moves))
              moves)
          moves)
    []

/-- Checked `Board::HasValidMoves`. -/
def HasValidMovesChecked (s : Board) (player : Int) : Option Bool := do
  let moves ← GetValidMovesChecked s player
  pure (decide (moves.length > 0))

/-- Checked lines 188-206 of `Move`. -/
def relocateChecked (s : Board) (pos : Vector) (dir count : Int) : Option Board := do
  let dest := pos + (DIR dir).scale count
  let p ← readChecked s pos
  let s1 ← writeChecked s dest p
  let s2 ← writeChecked s1 pos EMPTY
  let s3 ←
    if count = 2 then do
      let t ← writeChecked s2 (pos + DIR dir) EMPTY
      pure (if t.mTurn = PLAYERW then { t with mBlackCaptured := t.mBlackCaptured + 1 }
        else { t with mWhiteCaptured := t.mWhiteCaptured + 1 })
    else pure s2
  let s4 ← if dest.y = 0 ∧ s3.mTurn = PLAYERB then writeChecked s3 dest BLACK_KING else pure s3
  if dest.y = SIZE - 1 ∧ s4.mTurn = PLAYERW then writeChecked s4 dest WHITE_KING else pure s4

/-- Checked lines 215-220 of `Move`. -/
def passTurnChecked (s : Board) : Option Board := do
  let s6 := { s with mForcedJumps := [] }
  let s7 := { s6 with mTurn := if s6.mTurn = PLAYERB then PLAYERW else PLAYERB }
  let has ← HasValidMovesChecked s7 s7.mTurn
  pure (if !has then { s7 with mVictor := if s7.mTurn = PLAYERB then PLAYERW else PLAYERB }
    else s7)

/-- Checked lines 188-221 of `Move`. -/
def applyMoveChecked (s : Board) (pos : Vector) (dir count : Int) : Option Board := do
  let dest := pos + (DIR dir).scale count
  let s5 ← relocateChecked s pos dir count
  let jumps ← GetJumpsChecked s5 dest
  if count = 2 ∧ jumps.length ≠ 0 then pure { s5 with mForcedJumps := jumps }
  else passTurnChecked s5

/-- Checked `Board::Move`. -/
def MoveChecked (s : Board) (pos : Vector) (dir count : Int) : Option (Outcome × Board) := do
  let r ← ValidateMoveChecked s pos dir count true s.mTurn
  match r with
  | .error e => pure (.error e, s)
  | .ok _ =>
    let s' ← applyMoveChecked s pos dir count
    pure (.ok (), s')

/-! ## Notation and command parsing -/

/-- The value of a character constant such as `'A'`, as the `int` it promotes to. -/
def charCode (c : Char) : Int := Int.ofNat c.toNat

/-- The conversion `static_cast<char>(n)` to an 8-bit signed `char`. -/
def narrowChar (n : Int) : Int := (n + 128) % 256 - 128

/-- Member `Board::ToNotation`: the two characters `'A' + v.x` and `'8' - v.y`. -/
def ToNotation (v : Vector) : List Int :=
  [narrowChar (charCode 'A' + v.x), narrowChar (charCode '8' - v.y)]

/-- The lambda `FromNotation` of `ParseInput`, on the characters `str[0]` and
`str[1]` of its argument. -/
def FromNotation (str : List Int) : Vector :=
  if str.getD 0 0 ≥ charCode 'A' ∧ str.getD 0 0 ≤ charCode 'Z' then
    ⟨str.getD 0 0 - charCode 'A', charCode '8' - str.getD 1 0⟩
  else ⟨str.getD 0 0 - charCode 'a', charCode '8' - str.getD 1 0⟩

/-- The thrown `std::invalid_argument` of `ParseInput`, one constructor per message. -/
inductive ParseError where
  /-- Message "Command could not be parsed." -/
  | notParsed
  /-- Message "Invalid position." -/
  | invalidPosition
deriving DecidableEq, Repr

/-- The function `abs` of the C library. -/
def abs (n : Int) : Int := if n < 0 then -n else n

/-- Lines 402-413 of `ParseInput`: direction index and step count of the move from
`start` to `end`.  The `int` division of C++ truncates, as `Int.tdiv` does. -/
def deriveMove (start dest : Vector) : Except ParseError (Int × Int) :=
  let diff := dest - start
  if abs diff.x ≠ abs diff.y ∨ diff.x = 0 then .error .invalidPosition
  else
    let count := abs diff.x
    let dir : Vector := ⟨diff.x.tdiv (abs diff.x), diff.y.tdiv (abs diff.x)⟩
    match allDirections.find? (fun d => decide (DIR d = dir)) with
    | some d => .ok (d, count)
    | none => .error .notParsed

/-! ## Orders and counts used in the statements -/

/-- Lexicographic order of moves by row, column, direction index and step count. -/
def moveLess (a b : Vector × Int × Int) : Prop :=
  a.1.y < b.1.y ∨ (a.1.y = b.1.y ∧
    (a.1.x < b.1.x ∨ (a.1.x = b.1.x ∧
      (a.2.1 < b.2.1 ∨ (a.2.1 = b.2.1 ∧ a.2.2 < b.2.2)))))

/-- Tiles holding a white man or a white king. -/
def isWhite (p : Piece) : Bool :=
  match p with
  | WHITE => true
  | WHITE_KING => true
  | _ => false

/-- Tiles holding a black man or a black king. -/
def isBlack (p : Piece) : Bool :=
  match p with
  | BLACK => true
  | BLACK_KING => true
  | _ => false

/-- The number of tiles of the grid that satisfy `f`. -/
def pieceCount (f : Piece → Bool) (s : Board) : Int := Int.ofNat (s.mBoard.cells.countP f)

/-- Every piece is on the grid or counted as captured: 12 white and 12 black. -/
def Conserved (s : Board) : Prop :=
  pieceCount isWhite s + s.mWhiteCaptured = 12 ∧ pieceCount isBlack s + s.mBlackCaptured = 12

/-- While no victor is set the player to move has a valid move. -/
def NotStuck (s : Board) : Prop :=
  s.mVictor = -1 → HasValidMoves s s.mTurn = true

/-- The turn is one of the two players, and once a victor is set it is the player
not to move, the forced jumps are empty and no move validates. -/
def Settled (s : Board) : Prop :=
  (s.mTurn = PLAYERB ∨ s.mTurn = PLAYERW) ∧
  (s.mVictor ≠ -1 →
    s.mVictor = (if s.mTurn = PLAYERB then PLAYERW else PLAYERB) ∧
    s.mForcedJumps = [] ∧
    ∀ (pos : Vector) (dir count : Int), ValidateMove s pos dir count true s.mTurn ≠ .ok ())

/-! ## Concrete games -/

/-- Three opening moves: black B3-C4, white C6-D5, black F3-E4. -/
def gameTwoCaptures : List (Vector × Int × Int) :=
  [(⟨1, 5⟩, 1, 1), (⟨2, 2⟩, 3, 1), (⟨5, 5⟩, 0, 1)]

/-- The position after `gameTwoCaptures`: white to move, and the white man on D5
attacks both C4 and E4. -/
def boardTwoCaptures : Board := playMoves Board.init gameTwoCaptures

/-- Two opening moves: black D3-C4, white C6-B5. -/
def gameIdleCapture : List (Vector × Int × Int) :=
  [(⟨3, 5⟩, 0, 1), (⟨2, 2⟩, 2, 1)]

/-- The position after `gameIdleCapture`: black to move, while the white man on B5
attacks C4. -/
def boardIdleCapture : Board := playMoves Board.init gameIdleCapture

/-- Seven moves after which the white man on A6 can start a double jump. -/
def gameForkedJump : List (Vector × Int × Int) :=
  [(⟨1, 5⟩, 0, 1), (⟨0, 2⟩, 3, 1), (⟨0, 6⟩, 1, 1), (⟨1, 3⟩, 3, 1), (⟨3, 5⟩, 0, 2),
   (⟨1, 1⟩, 2, 1), (⟨4, 6⟩, 0, 1)]

/-- The position after `gameForkedJump`. -/
def boardForkedJump : Board := playMoves Board.init gameForkedJump

/-- The position in the middle of the double jump of `boardForkedJump`: the white
man has jumped from A6 to C4 and white is to move again. -/
def boardMidJump : Board := playMoves Board.init (gameForkedJump ++ [(⟨0, 2⟩, 3, 2)])

/-- Seven moves after which the white man on H7 can jump to F5 next to a black man
that the white man on D5 attacks as well. -/
def gameSharedVictim : List (Vector × Int × Int) :=
  [(⟨1, 5⟩, 0, 1), (⟨6, 2⟩, 3, 1), (⟨3, 5⟩, 1, 1), (⟨7, 3⟩, 2, 1), (⟨5, 5⟩, 1, 2),
   (⟨4, 2⟩, 2, 1), (⟨7, 3⟩, 0, 1)]

/-- The position after `gameSharedVictim`. -/
def boardSharedVictim : Board := playMoves Board.init gameSharedVictim

/-- Twelve moves after which the black man on E6 can jump to C8, on row 0. -/
def gameBeforeCrown : List (Vector × Int × Int) :=
  [(⟨1, 5⟩, 1, 1), (⟨6, 2⟩, 3, 1), (⟨5, 5⟩, 0, 1), (⟨2, 2⟩, 3, 1), (⟨4, 4⟩, 0, 2),
   (⟨1, 1⟩, 3, 2), (⟨3, 3⟩, 2, 2), (⟨2, 6⟩, 0, 2), (⟨2, 0⟩, 2, 1), (⟨3, 5⟩, 0, 1),
   (⟨4, 2⟩, 2, 1), (⟨2, 4⟩, 1, 2)]

/-- The position after `gameBeforeCrown`. -/
def boardBeforeCrown : Board := playMoves Board.init gameBeforeCrown

/-- The game continued up to the last move but one: 26 moves, after which white has
one man left, on G6, next to the black man on F5. -/
def gameBeforeWin : List (Vector × Int × Int) :=
  gameBeforeCrown ++
  [(⟨4, 2⟩, 0, 2), (⟨7, 3⟩, 2, 1), (⟨7, 5⟩, 0, 2),
   (⟨0, 2⟩, 3, 1), (⟨2, 0⟩, 2, 2), (⟨0, 4⟩, 1, 2), (⟨4, 0⟩, 2, 1), (⟨2, 2⟩, 1, 2),
   (⟨4, 0⟩, 3, 2), (⟨0, 0⟩, 3, 1), (⟨0, 2⟩, 1, 2), (⟨6, 0⟩, 2, 1), (⟨6, 2⟩, 0, 2),
   (⟨7, 1⟩, 2, 1)]

/-- The position after `gameBeforeWin`. -/
def boardBeforeWin : Board := playMoves Board.init gameBeforeWin

/-- A complete game of 27 moves that black wins by taking the last white man. -/
def gameBlackWins : List (Vector × Int × Int) :=
  gameBeforeWin ++ [(⟨5, 3⟩, 1, 2)]

/-- The final position of `gameBlackWins`. -/
def boardBlackWins : Board := playMoves Board.init gameBlackWins

/-! ## Basic facts -/

theorem reachable_playMoves (s : Board) (ms : List (Vector × Int × Int)) (h : Reachable s) :
    Reachable (playMoves s ms) := by
  induction ms generalizing s with
  | nil => exact h
  | cons m rest ih =>
    obtain ⟨pos, dir, count⟩ := m
    exact ih _ (Reachable.move s pos dir count h)

theorem ValidateMove_false (s : Board) (pos : Vector) (dir count player : Int) :
    ValidateMove s pos dir count false player = ValidateMoveNoJump s pos dir count player := by
  unfold ValidateMove ValidateMoveNoJump
  cases validateBasic s pos dir count player <;> rfl

/-! ## The ordered container -/

theorem setInsert_ne_nil (k : Vector) (l : List Vector) : setInsert k l ≠ [] := by
  cases l with
  | nil => simp [setInsert]
  | cons e rest =>
    unfold setInsert
    split
    · simp
    · split <;> simp

theorem mem_setInsert_imp {x k : Vector} {l : List Vector} (h : x ∈ setInsert k l) :
    x = k ∨ x ∈ l := by
  induction l with
  | nil => simpa [setInsert] using h
  | cons e rest ih =>
    unfold setInsert at h
    split at h
    · simpa using h
    · split at h
      · rcases List.mem_cons.mp h with h1 | h1
        · exact Or.inr (by simp [h1])
        · rcases ih h1 with h2 | h2
          · exact Or.inl h2
          · exact Or.inr (List.mem_cons_of_mem _ h2)
      · exact Or.inr h

theorem mem_setInsert_of_mem {x k : Vector} {l : List Vector} (h : x ∈ l) :
    x ∈ setInsert k l := by
  induction l with
  | nil => cases h
  | cons e rest ih =>
    unfold setInsert
    split
    · exact List.mem_cons_of_mem _ h
    · split
      · rcases List.mem_cons.mp h with h1 | h1
        · simp [h1]
        · exact List.mem_cons_of_mem _ (ih h1)
      · exact h

theorem setInsertRange_ne_nil_left (dst src : List Vector) (h : dst ≠ []) :
    setInsertRange dst src ≠ [] := by
  unfold setInsertRange
  induction src generalizing dst with
  | nil => simpa using h
  | cons j rest ih => exact ih _ (setInsert_ne_nil j dst)

theorem setInsertRange_ne_nil_right (dst src : List Vector) (h : src ≠ []) :
    setInsertRange dst src ≠ [] := by
  cases src with
  | nil => exact absurd rfl h
  | cons j rest =>
    have := setInsertRange_ne_nil_left (setInsert j dst) rest (setInsert_ne_nil j dst)
    simpa [setInsertRange] using this

theorem mem_setInsertRange_imp {x : Vector} {dst src : List Vector}
    (h : x ∈ setInsertRange dst src) : x ∈ dst ∨ x ∈ src := by
  unfold setInsertRange at h
  induction src generalizing dst with
  | nil => exact Or.inl (by simpa using h)
  | cons j rest ih =>
    rcases @ih (setInsert j dst) (by simpa using h) with h1 | h1
    · rcases mem_setInsert_imp h1 with h2 | h2
      · exact Or.inr (by simp [h2])
      · exact Or.inl h2
    · exact Or.inr (List.mem_cons_of_mem _ h1)

theorem mem_setInsertRange_left {x : Vector} {dst src : List Vector} (h : x ∈ dst) :
    x ∈ setInsertRange dst src := by
  unfold setInsertRange
  induction src generalizing dst with
  | nil => simpa using h
  | cons j rest ih => exact ih (mem_setInsert_of_mem h)

/-! ## Positions and jumps -/

theorem mem_allPositions {q : Vector} (h : IsInBounds q = true) : q ∈ allPositions := by
  obtain ⟨x, y⟩ := q
  simp only [IsInBounds, SIZE, Bool.and_eq_true, decide_eq_true_eq] at h
  obtain ⟨⟨⟨hx0, hy0⟩, hx8⟩, hy8⟩ := h
  simp only [allPositions, List.mem_flatMap, List.mem_map, List.mem_range]
  refine ⟨y.toNat, by omega, x.toNat, by omega, ?_⟩
  rw [Vector.mk.injEq]
  constructor <;> simp only [Int.ofNat_eq_coe] <;> omega

theorem isInBounds_of_mem_allPositions {q : Vector} (h : q ∈ allPositions) :
    IsInBounds q = true := by
  simp only [allPositions, List.mem_flatMap, List.mem_map, List.mem_range] at h
  obtain ⟨y, hy, x, hx, rfl⟩ := h
  simp only [IsInBounds, SIZE, Bool.and_eq_true, decide_eq_true_eq]
  refine ⟨⟨⟨?_, ?_⟩, ?_⟩, ?_⟩ <;> simp only [Int.ofNat_eq_coe] <;> omega

theorem mem_allDirections {d : Int} : d ∈ allDirections ↔ 0 ≤ d ∧ d < 4 := by
  simp only [allDirections, List.mem_cons, List.mem_singleton, List.not_mem_nil, or_false]
  omega

theorem mem_GetJumps {s : Board} {pos m : Vector} (h : m ∈ GetJumps s pos) :
    ∃ d, d ∈ allDirections ∧ m = pos + DIR d ∧ ValidateMoveNoJump s pos d 2 s.mTurn = .ok () := by
  have key : ∀ (ds : List Int) (acc : List Vector),
      m ∈ ds.foldl (fun jumps dir =>
        match ValidateMoveNoJump s pos dir 2 s.mTurn with
        | .ok _ => setInsert (pos + DIR dir) jumps
        | .error _ => jumps) acc →
      m ∈ acc ∨ ∃ d, d ∈ ds ∧ m = pos + DIR d ∧ ValidateMoveNoJump s pos d 2 s.mTurn = .ok () := by
    intro ds
    induction ds with
    | nil => intro acc hm; exact Or.inl (by simpa using hm)
    | cons d rest ih =>
      intro acc hm
      rw [List.foldl_cons] at hm
      rcases ih _ hm with h1 | ⟨d', hd', h2, h3⟩
      · cases hv : ValidateMoveNoJump s pos d 2 s.mTurn with
        | error e => rw [hv] at h1; exact Or.inl h1
        | ok u =>
          rw [hv] at h1
          rcases mem_setInsert_imp h1 with h4 | h4
          · exact Or.inr ⟨d, List.mem_cons_self _ _, h4, hv⟩
          · exact Or.inl h4
      · exact Or.inr ⟨d', List.mem_cons_of_mem _ hd', h2, h3⟩
  rcases key allDirections [] h with h1 | h1
  · cases h1
  · exact h1

theorem GetJumps_ne_nil {s : Board} {pos : Vector} {d : Int} (hd : d ∈ allDirections)
    (h : ValidateMoveNoJump s pos d 2 s.mTurn = .ok ()) : GetJumps s pos ≠ [] := by
  have key : ∀ (ds : List Int) (acc : List Vector),
      (acc ≠ [] ∨ d ∈ ds) →
      ds.foldl (fun jumps dir =>
        match ValidateMoveNoJump s pos dir 2 s.mTurn with
        | .ok _ => setInsert (pos + DIR dir) jumps
        | .error _ => jumps) acc ≠ [] := by
    intro ds
    induction ds with
    | nil =>
      intro acc hacc
      rcases hacc with h1 | h1
      · simpa using h1
      · cases h1
    | cons d' rest ih =>
      intro acc hacc
      rw [List.foldl_cons]
      apply ih
      rcases hacc with h1 | h1
      · left
        cases hv : ValidateMoveNoJump s pos d' 2 s.mTurn with
        | error e => exact h1
        | ok u => exact setInsert_ne_nil _ _
      · rcases List.mem_cons.mp h1 with h2 | h2
        · left
          subst h2
          rw [h]
          exact setInsert_ne_nil _ _
        · exact Or.inr h2
  exact key allDirections [] (Or.inr hd)

/-! ## The checks of `ValidateMove` -/

theorem validateBasic_ok_iff (s : Board) (pos : Vector) (dir count player : Int) :
    validateBasic s pos dir count player = .ok () ↔
      IsInBounds pos = true ∧ GetPlayerForTile s pos = player ∧ (count = 1 ∨ count = 2) ∧
      (0 ≤ dir ∧ dir < 4) ∧ IsInBounds (pos + (DIR dir).scale count) = true ∧
      s.tile (pos + (DIR dir).scale count) = EMPTY ∧
      (count = 2 →
        GetPlayerForTile s (pos + DIR dir) = if player = PLAYERW then PLAYERB else PLAYERW) := by
  unfold validateBasic
  simp only [Direction.MAX]
  generalize (if player = PLAYERW then PLAYERB else PLAYERW) = opp
  constructor
  · intro h
    split_ifs at h with h1 h2 h3 h4 h5
    simp only [Bool.not_eq_true', Bool.not_eq_false] at h1
    simp only [ne_eq, not_not] at h2
    simp only [Bool.or_eq_true, Bool.not_eq_true', decide_eq_true_eq, not_or, Bool.not_eq_false,
      ne_eq, not_not] at h4
    refine ⟨h1, h2, by omega, by omega, h4.1, h4.2, ?_⟩
    intro hc
    by_contra hne
    exact h5 ⟨hc, hne⟩
  · rintro ⟨h1, h2, h3, h4, h5, h6, h7⟩
    rw [if_neg (by simp [h1]), if_neg (by simp [h2]), if_neg (by omega),
      if_neg (by simp [h5, h6]), if_neg]
    rintro ⟨hc, hne⟩
    exact hne (h7 hc)

theorem validateRank_ok_iff (s : Board) (pos : Vector) (dir : Int) :
    validateRank s pos dir = .ok () ↔
      (s.tile pos = WHITE → dir = Direction.DL ∨ dir = Direction.DR) ∧
      (s.tile pos = BLACK → dir = Direction.UL ∨ dir = Direction.UR) := by
  unfold validateRank
  cases s.tile pos <;> simp <;> tauto

theorem validateJumpRule_ok_iff (s : Board) (pos : Vector) (dir count player : Int) :
    validateJumpRule s pos dir count player = .ok () ↔
      (jumpSet s player = [] ∨ ((pos + DIR dir) ∈ jumpSet s player ∧ count = 2)) := by
  unfold validateJumpRule
  cases hj : jumpSet s player with
  | nil => simp
  | cons a l =>
    simp only [List.isEmpty_cons, Bool.not_false, if_true]
    split_ifs with h
    · simp only [Bool.or_eq_true, decide_eq_true_eq] at h
      simp only [false_or, false_iff, reduceCtorEq]
      rintro ⟨h1, h2⟩
      rcases h with h | h
      · exact h h1
      · exact h h2
    · simp only [Bool.or_eq_true, decide_eq_true_eq, not_or, not_not, ne_eq] at h
      simp [h.1, h.2]

theorem ValidateMove_ok_iff (s : Board) (pos : Vector) (dir count : Int) (jump : Bool)
    (player : Int) :
    ValidateMove s pos dir count jump player = .ok () ↔
      validateBasic s pos dir count player = .ok () ∧
      (jump = true → validateJumpRule s pos dir count player = .ok ()) ∧
      validateRank s pos dir = .ok () := by
  unfold ValidateMove
  cases hb : validateBasic s pos dir count player with
  | error e => simp
  | ok u =>
    cases jump with
    | false => simp
    | true =>
      cases hj : validateJumpRule s pos dir count player with
      | error e => simp
      | ok v => simp

theorem ValidateMoveNoJump_ok_iff (s : Board) (pos : Vector) (dir count player : Int) :
    ValidateMoveNoJump s pos dir count player = .ok () ↔
      validateBasic s pos dir count player = .ok () ∧ validateRank s pos dir = .ok () := by
  rw [← ValidateMove_false, ValidateMove_ok_iff]
  simp

/-! ## The set of jumps -/

theorem jumpSet_of_forced (s : Board) (player : Int) (h : s.mForcedJumps ≠ []) :
    jumpSet s player = s.mForcedJumps := by
  unfold jumpSet
  cases hf : s.mForcedJumps with
  | nil => exact absurd hf h
  | cons a l => simp

theorem jumpScan_ne_nil (s : Board) (player : Int) (ps : List Vector) (acc : List Vector)
    (h : acc ≠ [] ∨ ∃ q, q ∈ ps ∧ GetPlayerForTile s q = player ∧ GetJumps s q ≠ []) :
    ps.foldl
      (fun jumps tmp =>
        if GetPlayerForTile s tmp ≠ player then jumps
        else setInsertRange jumps (GetJumps s tmp)) acc ≠ [] := by
  induction ps generalizing acc with
  | nil =>
    rcases h with h | ⟨q, hq, _⟩
    · simpa using h
    · cases hq
  | cons p rest ih =>
    rw [List.foldl_cons]
    apply ih
    rcases h with h | ⟨q, hq, hown, hj⟩
    · left
      split_ifs
      · exact h
      · exact setInsertRange_ne_nil_left _ _ h
    · rcases List.mem_cons.mp hq with h1 | h1
      · left
        subst h1
        rw [if_neg (by simp [hown])]
        exact setInsertRange_ne_nil_right _ _ hj
      · exact Or.inr ⟨q, h1, hown, hj⟩

theorem mem_jumpScan (s : Board) (player : Int) (m : Vector) (ps : List Vector)
    (acc : List Vector)
    (h : m ∈ ps.foldl
      (fun jumps tmp =>
        if GetPlayerForTile s tmp ≠ player then jumps
        else setInsertRange jumps (GetJumps s tmp)) acc) :
    m ∈ acc ∨ ∃ q, q ∈ ps ∧ GetPlayerForTile s q = player ∧ m ∈ GetJumps s q := by
  induction ps generalizing acc with
  | nil => exact Or.inl (by simpa using h)
  | cons p rest ih =>
    rw [List.foldl_cons] at h
    rcases ih _ h with h1 | ⟨q, hq, hown, hm⟩
    · split_ifs at h1 with hp
      · exact Or.inl h1
      · rcases mem_setInsertRange_imp h1 with h2 | h2
        · exact Or.inl h2
        · exact Or.inr ⟨p, List.mem_cons_self _ _, by simpa using hp, h2⟩
    · exact Or.inr ⟨q, List.mem_cons_of_mem _ hq, hown, hm⟩

theorem jumpScan_eq_nil (s : Board) (player : Int) (ps : List Vector)
    (h : ∀ q, q ∈ ps → GetPlayerForTile s q = player → GetJumps s q = []) :
    ps.foldl
      (fun jumps tmp =>
        if GetPlayerForTile s tmp ≠ player then jumps
        else setInsertRange jumps (GetJumps s tmp)) [] = [] := by
  induction ps with
  | nil => rfl
  | cons p rest ih =>
    rw [List.foldl_cons]
    have hrest := ih (fun q hq => h q (List.mem_cons_of_mem _ hq))
    split_ifs with hp
    · exact hrest
    · rw [h p (List.mem_cons_self _ _) (by simpa using hp)]
      simpa [setInsertRange] using hrest

theorem jumpSet_ne_nil_of_jump (s : Board) (player : Int) (q : Vector)
    (hb : IsInBounds q = true) (hown : GetPlayerForTile s q = player)
    (hj : GetJumps s q ≠ []) : jumpSet s player ≠ [] := by
  unfold jumpSet
  split_ifs with hf
  · exact jumpScan_ne_nil s player _ _ (Or.inr ⟨q, mem_allPositions hb, hown, hj⟩)
  · simpa using hf

theorem mem_jumpSet (s : Board) (player : Int) (m : Vector) (h : m ∈ jumpSet s player) :
    m ∈ s.mForcedJumps ∨
      ∃ q, IsInBounds q = true ∧ GetPlayerForTile s q = player ∧ m ∈ GetJumps s q := by
  unfold jumpSet at h
  split_ifs at h with hf
  · rcases mem_jumpScan s player m _ _ h with h1 | ⟨q, hq, hown, hm⟩
    · exact Or.inl h1
    · exact Or.inr ⟨q, isInBounds_of_mem_allPositions hq, hown, hm⟩
  · exact Or.inl h

/-! ## `Move` -/

theorem Move_fst (s : Board) (pos : Vector) (dir count : Int) :
    (Move s pos dir count).1 = ValidateMove s pos dir count true s.mTurn := by
  unfold Move
  cases h : ValidateMove s pos dir count true s.mTurn <;> rfl

theorem Move_error (s : Board) (pos : Vector) (dir count : Int) (e : MoveError)
    (h : ValidateMove s pos dir count true s.mTurn = .error e) :
    Move s pos dir count = (.error e, s) := by
  unfold Move
  rw [h]

theorem Move_ok (s : Board) (pos : Vector) (dir count : Int)
    (h : ValidateMove s pos dir count true s.mTurn = .ok ()) :
    Move s pos dir count = (.ok (), applyMove s pos dir count) := by
  unfold Move
  rw [h]

theorem movePiece_mTurn (s : Board) (pos dest : Vector) :
    (movePiece s pos dest).mTurn = s.mTurn := rfl

theorem takePiece_mTurn (s : Board) (mid : Vector) : (takePiece s mid).mTurn = s.mTurn := by
  unfold takePiece Board.setTile
  simp only
  split_ifs <;> rfl

theorem crown_mTurn (s : Board) (dest : Vector) : (crown s dest).mTurn = s.mTurn := by
  unfold crown Board.setTile
  simp only
  split_ifs <;> rfl

theorem relocate_mTurn (s : Board) (pos : Vector) (dir count : Int) :
    (relocate s pos dir count).mTurn = s.mTurn := by
  unfold relocate
  simp only
  rw [crown_mTurn]
  split_ifs
  · rw [takePiece_mTurn, movePiece_mTurn]
  · rw [movePiece_mTurn]

theorem takePiece_mVictor (s : Board) (mid : Vector) :
    (takePiece s mid).mVictor = s.mVictor := by
  unfold takePiece Board.setTile
  simp only
  split_ifs <;> rfl

theorem crown_mVictor (s : Board) (dest : Vector) : (crown s dest).mVictor = s.mVictor := by
  unfold crown Board.setTile
  simp only
  split_ifs <;> rfl

theorem relocate_mVictor (s : Board) (pos : Vector) (dir count : Int) :
    (relocate s pos dir count).mVictor = s.mVictor := by
  unfold relocate
  simp only
  rw [crown_mVictor]
  split_ifs
  · rw [takePiece_mVictor]; rfl
  · rfl

theorem passTurn_mForcedJumps (s : Board) : (passTurn s).mForcedJumps = [] := by
  unfold passTurn
  simp only
  split_ifs <;> rfl

theorem scale_one (v : Vector) : v.scale 1 = v := by
  cases v
  simp [Vector.scale]

/-- Either the move was a jump with a further jump from the landing tile, which is
recorded and keeps the turn, or the turn passes. -/
theorem applyMove_cases (s : Board) (pos : Vector) (dir count : Int) :
    (count = 2 ∧
      GetJumps (relocate s pos dir count) (pos + (DIR dir).scale count) ≠ [] ∧
      applyMove s pos dir count =
        { relocate s pos dir count with
          mForcedJumps := GetJumps (relocate s pos dir count) (pos + (DIR dir).scale count) }) ∨
    (applyMove s pos dir count = passTurn (relocate s pos dir count)) := by
  unfold applyMove
  simp only
  split_ifs with h
  · left
    refine ⟨h.1, ?_, rfl⟩
    intro h0
    exact h.2 (by rw [h0]; rfl)
  · right
    rfl

theorem validateBasic_not_mustJump (s : Board) (pos : Vector) (dir count player : Int)
    (js : List Vector) : validateBasic s pos dir count player ≠ .error (.mustJump js) := by
  unfold validateBasic
  simp only
  split_ifs <;> simp

theorem isInBounds_owner_of_GetJumps (s : Board) (q : Vector) (hq : GetJumps s q ≠ []) :
    IsInBounds q = true ∧ GetPlayerForTile s q = s.mTurn := by
  obtain ⟨m, hm⟩ := List.exists_mem_of_ne_nil _ hq
  obtain ⟨d, _, _, hv⟩ := mem_GetJumps hm
  rw [ValidateMoveNoJump_ok_iff, validateBasic_ok_iff] at hv
  exact ⟨hv.1.1, hv.1.2.1⟩

/-! ## Reading and writing tiles -/

theorem Grid.read_write (g : Grid) (x y x' y' : Int) (v : Piece) :
    (g.write x y v).read x' y' =
      if tileIndex x y = tileIndex x' y' ∧ 0 ≤ tileIndex x y ∧ tileIndex x y < 64 then v
      else g.read x' y' := by
  unfold Grid.write Grid.read
  by_cases h0 : 0 ≤ tileIndex x y
  · rw [if_pos h0]
    by_cases h1 : 0 ≤ tileIndex x' y'
    · simp only [h1, if_true, h0, true_and]
      rw [List.getD_eq_getElem?_getD, List.getD_eq_getElem?_getD, List.getElem?_set]
      have hlen := g.size_eq
      by_cases he : tileIndex x y = tileIndex x' y'
      · rw [he]
        by_cases h64 : tileIndex x' y' < 64
        · have : (tileIndex x' y').toNat < g.cells.length := by omega
          simp [this, h64]
        · have : ¬ (tileIndex x' y').toNat < g.cells.length := by omega
          simp [this, h64]
          rw [List.getElem?_eq_none (by omega)]
          rfl
      · have : (tileIndex x y).toNat ≠ (tileIndex x' y').toNat := by omega
        simp [this, he]
    · have : tileIndex x y ≠ tileIndex x' y' := by omega
      simp [h1, this]
  · simp [h0]

theorem tile_setTile (s : Board) (p q : Vector) (v : Piece) :
    (s.setTile p v).tile q =
      if tileIndex p.x p.y = tileIndex q.x q.y ∧ 0 ≤ tileIndex p.x p.y ∧ tileIndex p.x p.y < 64
      then v else s.tile q :=
  Grid.read_write s.mBoard p.x p.y q.x q.y v

theorem tile_congr_index (s : Board) (p q : Vector)
    (h : tileIndex p.x p.y = tileIndex q.x q.y) : s.tile p = s.tile q := by
  unfold Board.tile Grid.read
  rw [h]

theorem tileIndex_range {p : Vector} (hp : IsInBounds p = true) :
    0 ≤ tileIndex p.x p.y ∧ tileIndex p.x p.y < 64 := by
  simp only [IsInBounds, SIZE, Bool.and_eq_true, decide_eq_true_eq] at hp
  unfold tileIndex SIZE
  omega

theorem tileIndex_inj {p q : Vector} (hp : IsInBounds p = true) (hq : IsInBounds q = true)
    (h : tileIndex p.x p.y = tileIndex q.x q.y) : p = q := by
  simp only [IsInBounds, SIZE, Bool.and_eq_true, decide_eq_true_eq] at hp hq
  unfold tileIndex SIZE at h
  obtain ⟨px, py⟩ := p
  obtain ⟨qx, qy⟩ := q
  simp only at hp hq h
  rw [Vector.mk.injEq]
  omega

theorem add_x (a b : Vector) : (a + b).x = a.x + b.x := rfl

theorem add_y (a b : Vector) : (a + b).y = a.y + b.y := rfl

theorem DIR_cases {d : Int} (hd : 0 ≤ d ∧ d < 4) :
    DIR d = ⟨-1, -1⟩ ∨ DIR d = ⟨1, -1⟩ ∨ DIR d = ⟨-1, 1⟩ ∨ DIR d = ⟨1, 1⟩ := by
  have : d = 0 ∨ d = 1 ∨ d = 2 ∨ d = 3 := by omega
  rcases this with h | h | h | h <;> subst h <;> simp [DIR]

/-- What a validated move knows about its three tiles. -/
theorem geometry_of_valid (s : Board) (pos : Vector) (dir count player : Int)
    (h : validateBasic s pos dir count player = .ok ()) :
    IsInBounds pos = true ∧ IsInBounds (pos + (DIR dir).scale count) = true ∧
    (count = 2 → IsInBounds (pos + DIR dir) = true) ∧
    tileIndex (pos + (DIR dir).scale count).x (pos + (DIR dir).scale count).y
      ≠ tileIndex pos.x pos.y ∧
    (count = 2 → tileIndex (pos + DIR dir).x (pos + DIR dir).y ≠ tileIndex pos.x pos.y) ∧
    (count = 2 → tileIndex (pos + DIR dir).x (pos + DIR dir).y
      ≠ tileIndex (pos + (DIR dir).scale count).x (pos + (DIR dir).scale count).y) := by
  rw [validateBasic_ok_iff] at h
  obtain ⟨hp, _, hc, hd, hdest, _, _⟩ := h
  have hp' := hp
  have hdest' := hdest
  simp only [IsInBounds, SIZE, Bool.and_eq_true, decide_eq_true_eq, add_x, add_y,
    Vector.scale] at hp' hdest' ⊢
  simp only [tileIndex, SIZE, add_x, add_y, Vector.scale]
  obtain ⟨px, py⟩ := pos
  simp only at hp' hdest' ⊢
  rcases DIR_cases hd with hD | hD | hD | hD <;> rw [hD] at hdest' ⊢ <;>
    simp only at hdest' ⊢ <;>
    rcases hc with hc | hc <;> subst hc <;> omega

theorem takePiece_tile (s : Board) (mid q : Vector) :
    (takePiece s mid).tile q = (s.setTile mid EMPTY).tile q := by
  unfold takePiece
  simp only
  split_ifs <;> rfl

theorem crown_tile (s : Board) (dest q : Vector) :
    (crown s dest).tile q =
      if dest.y = SIZE - 1 ∧ s.mTurn = PLAYERW then (s.setTile dest WHITE_KING).tile q
      else if dest.y = 0 ∧ s.mTurn = PLAYERB then (s.setTile dest BLACK_KING).tile q
      else s.tile q := by
  unfold crown
  simp only
  by_cases hb : dest.y = 0 ∧ s.mTurn = PLAYERB
  · have hw : ¬ (dest.y = SIZE - 1 ∧ s.mTurn = PLAYERW) := by
      rintro ⟨h1, _⟩
      rw [hb.1] at h1
      exact absurd h1 (by decide)
    have hw' : ¬ (dest.y = SIZE - 1 ∧ (s.setTile dest BLACK_KING).mTurn = PLAYERW) := hw
    rw [if_pos hb, if_neg hw', if_neg hw, if_pos hb]
  · rw [if_neg hb]
    split_ifs <;> rfl

/-- The piece standing on each tile after the relocation and the crowning. -/
theorem relocate_tile (s : Board) (pos : Vector) (dir count player : Int)
    (h : validateBasic s pos dir count player = .ok ()) (q : Vector) :
    (relocate s pos dir count).tile q =
      if tileIndex q.x q.y
          = tileIndex (pos + (DIR dir).scale count).x (pos + (DIR dir).scale count).y then
        (if (pos + (DIR dir).scale count).y = SIZE - 1 ∧ s.mTurn = PLAYERW then WHITE_KING
         else if (pos + (DIR dir).scale count).y = 0 ∧ s.mTurn = PLAYERB then BLACK_KING
         else s.tile pos)
      else if tileIndex q.x q.y = tileIndex pos.x pos.y then EMPTY
      else if count = 2 ∧ tileIndex q.x q.y = tileIndex (pos + DIR dir).x (pos + DIR dir).y
        then EMPTY
      else s.tile q := by
  obtain ⟨hp, hdest, hmid, hne1, hne2, hne3⟩ := geometry_of_valid s pos dir count player h
  have rp := tileIndex_range hp
  have rd := tileIndex_range hdest
  generalize hD : pos + (DIR dir).scale count = dest at *
  generalize hM : pos + DIR dir = mid at *
  have hturn : (if count = 2 then takePiece (movePiece s pos dest) mid
      else movePiece s pos dest).mTurn = s.mTurn := by
    split_ifs
    · rw [takePiece_mTurn, movePiece_mTurn]
    · rw [movePiece_mTurn]
  unfold relocate
  simp only [hD, hM]
  rw [crown_tile, hturn]
  by_cases hc : count = 2
  · have rm := tileIndex_range (hmid hc)
    have hne2' := hne2 hc
    have hne3' := hne3 hc
    simp only [hc, if_true, true_and, tile_setTile, takePiece_tile, movePiece]
    split_ifs <;> first | rfl | omega
  · simp only [hc, if_false, false_and, tile_setTile, movePiece]
    split_ifs <;> first | rfl | omega

/-! ## Enumeration of the valid moves -/

theorem mem_GetValidMoves (s : Board) (player : Int) (pos : Vector) (d c : Int) :
    (pos, d, c) ∈ GetValidMoves s player ↔
      pos ∈ allPositions ∧ GetPlayerForTile s pos = player ∧ d ∈ allDirections ∧
      (c = 1 ∨ c = 2) ∧ ValidateMove s pos d c true player = .ok () := by
  unfold GetValidMoves
  simp only [List.mem_flatMap]
  constructor
  · rintro ⟨p, hp, hmem⟩
    split_ifs at hmem with hown
    · cases hmem
    · simp only [List.mem_flatMap] at hmem
      obtain ⟨i, hi, c', hc', hm⟩ := hmem
      cases hv : ValidateMove s p i c' true player with
      | error e => rw [hv] at hm; cases hm
      | ok u =>
        rw [hv] at hm
        simp only [List.mem_singleton, Prod.mk.injEq] at hm
        obtain ⟨rfl, rfl, rfl⟩ := hm
        refine ⟨hp, by simpa using hown, hi, ?_, hv⟩
        simpa using hc'
  · rintro ⟨hp, hown, hd, hc, hv⟩
    refine ⟨pos, hp, ?_⟩
    rw [if_neg (by simp [hown])]
    simp only [List.mem_flatMap]
    refine ⟨d, hd, c, by simpa using hc, ?_⟩
    rw [hv]
    simp

theorem GetValidMoves_eq_nil_iff (s : Board) (player : Int) :
    GetValidMoves s player = [] ↔
      ∀ (pos : Vector) (d c : Int), ValidateMove s pos d c true player ≠ .ok () := by
  constructor
  · intro h pos d c hv
    have hb := (ValidateMove_ok_iff s pos d c true player).mp hv
    have hbb := (validateBasic_ok_iff s pos d c player).mp hb.1
    have hm : (pos, d, c) ∈ GetValidMoves s player :=
      (mem_GetValidMoves s player pos d c).mpr
        ⟨mem_allPositions hbb.1, hbb.2.1, mem_allDirections.mpr hbb.2.2.2.1, hbb.2.2.1, hv⟩
    rw [h] at hm
    cases hm
  · intro h
    rw [List.eq_nil_iff_forall_not_mem]
    rintro ⟨pos, d, c⟩ hm
    exact h pos d c ((mem_GetValidMoves s player pos d c).mp hm).2.2.2.2

theorem HasValidMoves_eq_false_iff (s : Board) (player : Int) :
    HasValidMoves s player = false ↔ GetValidMoves s player = [] := by
  unfold HasValidMoves
  cases GetValidMoves s player <;> simp

theorem HasValidMoves_eq_true_iff (s : Board) (player : Int) :
    HasValidMoves s player = true ↔
      ∃ (pos : Vector) (d c : Int), ValidateMove s pos d c true player = .ok () := by
  rw [← Bool.not_eq_false, HasValidMoves_eq_false_iff, GetValidMoves_eq_nil_iff]
  push_neg
  rfl

/-- The checks read the grid, the turn and the forced jumps, not the victor. -/
theorem ValidateMove_setVictor (s : Board) (v : Int) (pos : Vector) (dir count : Int)
    (jump : Bool) (player : Int) :
    ValidateMove { s with mVictor := v } pos dir count jump player
      = ValidateMove s pos dir count jump player := rfl

theorem GetValidMoves_setVictor (s : Board) (v : Int) (player : Int) :
    GetValidMoves { s with mVictor := v } player = GetValidMoves s player := rfl

theorem HasValidMoves_setVictor (s : Board) (v : Int) (player : Int) :
    HasValidMoves { s with mVictor := v } player = HasValidMoves s player := rfl

/-! ## Passing the turn -/

/-- The state in which `HasValidMoves` is asked after the turn has changed. -/
theorem passTurn_cases (s : Board) :
    (HasValidMoves (passTurn s) (passTurn s).mTurn = false ∧
      passTurn s =
        { s with
          mForcedJumps := []
          mTurn := if s.mTurn = PLAYERB then PLAYERW else PLAYERB
          mVictor :=
            if (if s.mTurn = PLAYERB then PLAYERW else PLAYERB) = PLAYERB then PLAYERW
            else PLAYERB }) ∨
    (HasValidMoves (passTurn s) (passTurn s).mTurn = true ∧
      passTurn s =
        { s with
          mForcedJumps := []
          mTurn := if s.mTurn = PLAYERB then PLAYERW else PLAYERB }) := by
  unfold passTurn
  simp only
  cases hv : HasValidMoves
      { s with mForcedJumps := [], mTurn := if s.mTurn = PLAYERB then PLAYERW else PLAYERB }
      (if s.mTurn = PLAYERB then PLAYERW else PLAYERB) with
  | false =>
    left
    simp only [Bool.not_false, if_true]
    exact ⟨hv, trivial⟩
  | true =>
    right
    simp only [Bool.not_true, Bool.false_eq_true, if_false]
    exact ⟨hv, trivial⟩

theorem passTurn_tile (s : Board) (q : Vector) : (passTurn s).tile q = s.tile q := by
  unfold passTurn
  simp only
  split_ifs <;> rfl

theorem applyMove_tile (s : Board) (pos : Vector) (dir count : Int) (q : Vector) :
    (applyMove s pos dir count).tile q = (relocate s pos dir count).tile q := by
  rcases applyMove_cases s pos dir count with ⟨_, _, h⟩ | h
  · rw [h]; rfl
  · rw [h, passTurn_tile]

/-! ## What holds in every reachable state -/

theorem settled_init : Settled Board.init := by
  refine ⟨Or.inl (by decide), ?_⟩
  intro h
  exact absurd (by decide) h

theorem settled_Move (s : Board) (pos : Vector) (dir count : Int) (h : Settled s) :
    Settled (Move s pos dir count).2 := by
  cases hv : ValidateMove s pos dir count true s.mTurn with
  | error e => rw [Move_error s pos dir count e hv]; exact h
  | ok u =>
    rw [Move_ok s pos dir count hv]
    simp only
    have hvic : s.mVictor = -1 := by
      by_contra hne
      exact (h.2 hne).2.2 pos dir count hv
    rcases applyMove_cases s pos dir count with ⟨_, _, happ⟩ | happ
    · rw [happ]
      refine ⟨?_, ?_⟩
      · show (relocate s pos dir count).mTurn = PLAYERB ∨ (relocate s pos dir count).mTurn = PLAYERW
        rw [relocate_mTurn]
        exact h.1
      · intro hne
        exfalso
        apply hne
        show (relocate s pos dir count).mVictor = -1
        rw [relocate_mVictor]
        exact hvic
    · rw [happ]
      have hrt := relocate_mTurn s pos dir count
      have hrv := relocate_mVictor s pos dir count
      generalize relocate s pos dir count = r at hrt hrv
      rcases passTurn_cases r with ⟨hno, heq⟩ | ⟨_, heq⟩
      · have hno' := (GetValidMoves_eq_nil_iff _ _).mp ((HasValidMoves_eq_false_iff _ _).mp hno)
        rw [heq] at hno' ⊢
        refine ⟨?_, ?_⟩
        · show (if r.mTurn = PLAYERB then PLAYERW else PLAYERB) = PLAYERB ∨
            (if r.mTurn = PLAYERB then PLAYERW else PLAYERB) = PLAYERW
          split_ifs
          · exact Or.inr rfl
          · exact Or.inl rfl
        · intro _
          exact ⟨rfl, rfl, hno'⟩
      · rw [heq]
        refine ⟨?_, ?_⟩
        · show (if r.mTurn = PLAYERB then PLAYERW else PLAYERB) = PLAYERB ∨
            (if r.mTurn = PLAYERB then PLAYERW else PLAYERB) = PLAYERW
          split_ifs
          · exact Or.inr rfl
          · exact Or.inl rfl
        · intro hne
          exfalso
          apply hne
          show r.mVictor = -1
          rw [hrv]
          exact hvic

theorem settled_of_reachable (s : Board) (h : Reachable s) : Settled s := by
  induction h with
  | init => exact settled_init
  | move s pos dir count _ ih => exact settled_Move s pos dir count ih

/-! ## Counters, turn and forced jumps after a move -/

theorem takePiece_counters (s : Board) (mid : Vector) :
    (takePiece s mid).mBlackCaptured
        = s.mBlackCaptured + (if s.mTurn = PLAYERW then 1 else 0) ∧
    (takePiece s mid).mWhiteCaptured
        = s.mWhiteCaptured + (if s.mTurn = PLAYERW then 0 else 1) := by
  unfold takePiece Board.setTile
  simp only
  split_ifs <;> simp

theorem crown_counters (s : Board) (dest : Vector) :
    (crown s dest).mBlackCaptured = s.mBlackCaptured ∧
    (crown s dest).mWhiteCaptured = s.mWhiteCaptured := by
  unfold crown Board.setTile
  simp only
  split_ifs <;> exact ⟨rfl, rfl⟩

theorem relocate_counters (s : Board) (pos : Vector) (dir count : Int) :
    (relocate s pos dir count).mBlackCaptured
        = s.mBlackCaptured + (if count = 2 ∧ s.mTurn = PLAYERW then 1 else 0) ∧
    (relocate s pos dir count).mWhiteCaptured
        = s.mWhiteCaptured + (if count = 2 ∧ ¬ s.mTurn = PLAYERW then 1 else 0) := by
  unfold relocate
  simp only
  rw [(crown_counters _ _).1, (crown_counters _ _).2]
  by_cases hc : count = 2
  · rw [if_pos hc, (takePiece_counters _ _).1, (takePiece_counters _ _).2, movePiece_mTurn]
    by_cases hw : s.mTurn = PLAYERW
    · simp [hc, hw, movePiece, Board.setTile]
    · simp [hc, hw, movePiece, Board.setTile]
  · rw [if_neg hc]
    simp [hc, movePiece, Board.setTile]

theorem passTurn_counters (s : Board) :
    (passTurn s).mBlackCaptured = s.mBlackCaptured ∧
    (passTurn s).mWhiteCaptured = s.mWhiteCaptured := by
  unfold passTurn
  simp only
  split_ifs <;> exact ⟨rfl, rfl⟩

theorem passTurn_mTurn (s : Board) :
    (passTurn s).mTurn = if s.mTurn = PLAYERB then PLAYERW else PLAYERB := by
  unfold passTurn
  simp only
  split_ifs <;> rfl

theorem applyMove_counters (s : Board) (pos : Vector) (dir count : Int) :
    (applyMove s pos dir count).mBlackCaptured = (relocate s pos dir count).mBlackCaptured ∧
    (applyMove s pos dir count).mWhiteCaptured = (relocate s pos dir count).mWhiteCaptured := by
  rcases applyMove_cases s pos dir count with ⟨_, _, h⟩ | h
  · rw [h]; exact ⟨rfl, rfl⟩
  · rw [h]; exact passTurn_counters _

theorem applyMove_step (s : Board) (pos : Vector) (dir : Int) :
    applyMove s pos dir 1 = passTurn (relocate s pos dir 1) := by
  rcases applyMove_cases s pos dir 1 with ⟨h, _, _⟩ | h
  · exact absurd h (by decide)
  · exact h

/-! ## The fresh board -/

set_option maxRecDepth 1000000 in
theorem initial_tiles_on_positions :
    ∀ p ∈ allPositions,
      (Board.init.tile p = WHITE ↔ p.y ≤ 2 ∧ (p.x + p.y) % 2 = 0) ∧
      (Board.init.tile p = BLACK ↔ p.y ≥ 5 ∧ (p.x + p.y) % 2 = 0) ∧
      (Board.init.tile p = EMPTY ↔ ¬ ((p.y ≤ 2 ∨ p.y ≥ 5) ∧ (p.x + p.y) % 2 = 0)) := by
  decide

/-! ## Order of the enumeration -/

theorem pairwise_allPositions :
    allPositions.Pairwise (fun a b => a.y < b.y ∨ (a.y = b.y ∧ a.x < b.x)) := by
  unfold allPositions
  rw [List.pairwise_flatMap]
  constructor
  · intro y _
    rw [List.pairwise_map]
    refine (List.pairwise_lt_range 8).imp ?_
    intro a b hab
    right
    exact ⟨rfl, by simp only [Int.ofNat_eq_coe]; omega⟩
  · refine (List.pairwise_lt_range 8).imp ?_
    intro a b hab x hx y hy
    simp only [List.mem_map] at hx hy
    obtain ⟨_, _, rfl⟩ := hx
    obtain ⟨_, _, rfl⟩ := hy
    left
    simp only [Int.ofNat_eq_coe]
    omega

theorem pairwise_GetValidMoves (s : Board) (player : Int) :
    (GetValidMoves s player).Pairwise moveLess := by
  unfold GetValidMoves
  rw [List.pairwise_flatMap]
  constructor
  · intro pos _
    split_ifs
    · exact List.Pairwise.nil
    · rw [List.pairwise_flatMap]
      constructor
      · intro i _
        rw [List.pairwise_flatMap]
        constructor
        · intro c _
          cases ValidateMove s pos i c true player <;> simp
        · simp only [List.pairwise_cons, List.mem_singleton, List.not_mem_nil, forall_eq,
            List.Pairwise.nil, and_true, IsEmpty.forall_iff, implies_true]
          intro x hx y hy
          cases h1 : ValidateMove s pos i 1 true player <;> rw [h1] at hx <;>
            simp only [List.mem_singleton, List.not_mem_nil] at hx
          cases h2 : ValidateMove s pos i 2 true player <;> rw [h2] at hy <;>
            simp only [List.mem_singleton, List.not_mem_nil] at hy
          subst hx hy
          unfold moveLess
          simp
      · have hd : allDirections.Pairwise (fun a b => a < b) := by decide
        refine hd.imp ?_
        intro a b hab x hx y hy
        simp only [List.mem_flatMap] at hx hy
        obtain ⟨c, _, hx⟩ := hx
        obtain ⟨c', _, hy⟩ := hy
        cases h1 : ValidateMove s pos a c true player <;> rw [h1] at hx <;>
          simp only [List.mem_singleton, List.not_mem_nil] at hx
        cases h2 : ValidateMove s pos b c' true player <;> rw [h2] at hy <;>
          simp only [List.mem_singleton, List.not_mem_nil] at hy
        subst hx hy
        unfold moveLess
        simp [hab]
  · refine pairwise_allPositions.imp ?_
    intro a b hab x hx y hy
    have hxa : x.1 = a := by
      split_ifs at hx
      · cases hx
      · simp only [List.mem_flatMap] at hx
        obtain ⟨i, _, c, _, hx⟩ := hx
        cases h1 : ValidateMove s a i c true player <;> rw [h1] at hx <;>
          simp only [List.mem_singleton, List.not_mem_nil] at hx
        rw [hx]
    have hyb : y.1 = b := by
      split_ifs at hy
      · cases hy
      · simp only [List.mem_flatMap] at hy
        obtain ⟨i, _, c, _, hy⟩ := hy
        cases h1 : ValidateMove s b i c true player <;> rw [h1] at hy <;>
          simp only [List.mem_singleton, List.not_mem_nil] at hy
        rw [hy]
    unfold moveLess
    rw [hxa, hyb]
    rcases hab with h | ⟨h1, h2⟩
    · exact Or.inl h
    · exact Or.inr ⟨h1, Or.inl h2⟩

theorem moveLess_irrefl (a : Vector × Int × Int) : ¬ moveLess a a := by
  unfold moveLess
  omega

/-! ## Notation and move derivation -/

theorem charCode_values :
    charCode 'A' = 65 ∧ charCode 'H' = 72 ∧ charCode 'Z' = 90 ∧ charCode 'a' = 97 ∧
    charCode '1' = 49 ∧ charCode '8' = 56 := by
  decide

theorem sub_x (a b : Vector) : (a - b).x = a.x - b.x := rfl

theorem sub_y (a b : Vector) : (a - b).y = a.y - b.y := rfl

/-- The four diagonal displacements and what `deriveMove` returns for them. -/
theorem deriveMove_diagonal (start dest : Vector)
    (hd : abs (dest.x - start.x) = abs (dest.y - start.y)) (h0 : dest.x - start.x ≠ 0) :
    ∃ d, (0 ≤ d ∧ d ≤ 3) ∧ deriveMove start dest = .ok (d, abs (dest.x - start.x)) ∧
      start + (DIR d).scale (abs (dest.x - start.x)) = dest := by
  obtain ⟨sx, sy⟩ := start
  obtain ⟨ex, ey⟩ := dest
  obtain ⟨dx, rfl⟩ : ∃ dx, ex = sx + dx := ⟨ex - sx, by omega⟩
  obtain ⟨dy, rfl⟩ : ∃ dy, ey = sy + dy := ⟨ey - sy, by omega⟩
  simp only [add_sub_cancel_left] at hd h0 ⊢
  have hcond : ¬ (abs dx ≠ abs dy ∨ dx = 0) := by
    rintro (h | h)
    · exact h hd
    · exact h0 h
  unfold deriveMove
  simp only [sub_x, sub_y, add_sub_cancel_left]
  rw [if_neg hcond]
  unfold abs at hd ⊢
  by_cases hx : dx < 0
  · rw [if_pos hx] at hd ⊢
    have hxx : dx.tdiv (-dx) = -1 := by rw [Int.tdiv_neg, Int.tdiv_self h0]
    by_cases hy : dy < 0
    · rw [if_pos hy] at hd
      have hyx : dy = dx := by omega
      subst hyx
      rw [hxx]
      refine ⟨0, by omega, rfl, ?_⟩
      show Vector.mk (sx + -1 * -dy) (sy + -1 * -dy) = _
      rw [Vector.mk.injEq]
      constructor <;> omega
    · rw [if_neg hy] at hd
      have hyx : dy = -dx := by omega
      subst hyx
      have hyy : (-dx).tdiv (-dx) = 1 := Int.tdiv_self (by omega)
      rw [hxx, hyy]
      refine ⟨2, by omega, rfl, ?_⟩
      show Vector.mk (sx + -1 * -dx) (sy + 1 * -dx) = _
      rw [Vector.mk.injEq]
      constructor <;> omega
  · rw [if_neg hx] at hd ⊢
    have hxx : dx.tdiv dx = 1 := Int.tdiv_self h0
    by_cases hy : dy < 0
    · rw [if_pos hy] at hd
      have hyx : dy = -dx := by omega
      subst hyx
      have hyy : (-dx).tdiv dx = -1 := by rw [Int.neg_tdiv, Int.tdiv_self h0]
      rw [hxx, hyy]
      refine ⟨1, by omega, rfl, ?_⟩
      show Vector.mk (sx + 1 * dx) (sy + -1 * dx) = _
      rw [Vector.mk.injEq]
      constructor <;> omega
    · rw [if_neg hy] at hd
      have hyx : dy = dx := by omega
      subst hyx
      rw [hxx]
      refine ⟨3, by omega, rfl, ?_⟩
      show Vector.mk (sx + 1 * dy) (sy + 1 * dy) = _
      rw [Vector.mk.injEq]
      constructor <;> omega

theorem deriveMove_invalid (start dest : Vector)
    (h : abs (dest.x - start.x) ≠ abs (dest.y - start.y) ∨ dest.x - start.x = 0) :
    deriveMove start dest = .error .invalidPosition := by
  unfold deriveMove
  simp only [sub_x, sub_y]
  rw [if_pos h]

/-! ## Counting pieces -/

theorem countP_set_add (f : Piece → Bool) :
    ∀ (l : List Piece) (i : Nat) (v : Piece), i < l.length →
      (Int.ofNat ((l.set i v).countP f) : Int) + (if f (l.getD i EMPTY) = true then 1 else 0)
        = Int.ofNat (l.countP f) + (if f v = true then 1 else 0) := by
  intro l
  induction l with
  | nil => intro i v h; simp at h
  | cons a rest ih =>
    intro i v h
    cases i with
    | zero =>
      simp only [List.set_cons_zero, List.countP_cons, List.getD_cons_zero, Int.ofNat_eq_coe,
        Nat.cast_add]
      split_ifs <;> simp
    | succ j =>
      have hj : j < rest.length := by simpa using h
      have := ih j v hj
      simp only [List.set_cons_succ, List.countP_cons, List.getD_cons_succ, Int.ofNat_eq_coe,
        Nat.cast_add] at this ⊢
      omega

theorem pieceCount_setTile (f : Piece → Bool) (s : Board) (p : Vector) (v : Piece)
    (hp : IsInBounds p = true) :
    pieceCount f (s.setTile p v) + (if f (s.tile p) = true then 1 else 0)
      = pieceCount f s + (if f v = true then 1 else 0) := by
  obtain ⟨h0, h64⟩ := tileIndex_range hp
  unfold pieceCount Board.setTile Board.tile Grid.write Grid.read
  simp only [h0, if_true]
  exact countP_set_add f s.mBoard.cells (tileIndex p.x p.y).toNat v
    (by rw [s.mBoard.size_eq]; omega)

theorem pieceCount_takePiece (f : Piece → Bool) (s : Board) (mid : Vector) :
    pieceCount f (takePiece s mid) = pieceCount f (s.setTile mid EMPTY) := by
  unfold takePiece
  simp only
  split_ifs <;> rfl

theorem pieceCount_passTurn (f : Piece → Bool) (s : Board) :
    pieceCount f (passTurn s) = pieceCount f s := by
  unfold passTurn
  simp only
  split_ifs <;> rfl

theorem pieceCount_applyMove (f : Piece → Bool) (s : Board) (pos : Vector) (dir count : Int) :
    pieceCount f (applyMove s pos dir count) = pieceCount f (relocate s pos dir count) := by
  rcases applyMove_cases s pos dir count with ⟨_, _, h⟩ | h
  · rw [h]; rfl
  · rw [h, pieceCount_passTurn]

/-- The relocation takes the jumped piece off the grid and nothing else, as counted
by a test `f` that is false on `EMPTY` and does not tell a man from its king. -/
theorem pieceCount_relocate (f : Piece → Bool) (s : Board) (pos : Vector) (dir count : Int)
    (hb : validateBasic s pos dir count s.mTurn = .ok ())
    (hE : f EMPTY = false)
    (hB : s.mTurn = PLAYERB → f BLACK_KING = f (s.tile pos))
    (hW : s.mTurn = PLAYERW → f WHITE_KING = f (s.tile pos)) :
    pieceCount f (relocate s pos dir count)
        + (if count = 2 ∧ f (s.tile (pos + DIR dir)) = true then 1 else 0)
      = pieceCount f s := by
  have hbb := (validateBasic_ok_iff s pos dir count s.mTurn).mp hb
  obtain ⟨hp, hdest, hmid, hne1, hne2, hne3⟩ := geometry_of_valid s pos dir count s.mTurn hb
  have hempty := hbb.2.2.2.2.2.1
  have rp := tileIndex_range hp
  have rd := tileIndex_range hdest
  generalize hD : pos + (DIR dir).scale count = dest at *
  generalize hM : pos + DIR dir = mid at *
  unfold relocate
  simp only [hD, hM]
  -- the piece copied to the destination, then the origin cleared
  have c1 := pieceCount_setTile f s dest (s.tile pos) hdest
  rw [hempty, hE] at c1
  have c2 := pieceCount_setTile f (s.setTile dest (s.tile pos)) pos EMPTY hp
  have t1 : (s.setTile dest (s.tile pos)).tile pos = s.tile pos := by
    rw [tile_setTile, if_neg (fun h => hne1 h.1)]
  rw [t1, hE] at c2
  have hmove : pieceCount f (movePiece s pos dest) = pieceCount f s := by
    unfold movePiece
    simp only [Bool.false_eq_true, if_false, add_zero] at c1 c2
    omega
  have tdest2 : (movePiece s pos dest).tile dest = s.tile pos := by
    unfold movePiece
    rw [tile_setTile, if_neg (fun h => hne1 h.1.symm), tile_setTile, if_pos ⟨rfl, rd⟩]
  -- the jumped piece taken
  have hs3 : pieceCount f (if count = 2 then takePiece (movePiece s pos dest) mid
        else movePiece s pos dest)
        + (if count = 2 ∧ f (s.tile mid) = true then 1 else 0) = pieceCount f s ∧
      (if count = 2 then takePiece (movePiece s pos dest) mid
        else movePiece s pos dest).tile dest = s.tile pos ∧
      (if count = 2 then takePiece (movePiece s pos dest) mid
        else movePiece s pos dest).mTurn = s.mTurn := by
    by_cases hc : count = 2
    · rw [if_pos hc]
      have c3 := pieceCount_setTile f (movePiece s pos dest) mid EMPTY (hmid hc)
      have tmid : (movePiece s pos dest).tile mid = s.tile mid := by
        unfold movePiece
        rw [tile_setTile, if_neg (fun h => hne2 hc h.1.symm), tile_setTile,
          if_neg (fun h => hne3 hc h.1.symm)]
      rw [tmid, hE] at c3
      refine ⟨?_, ?_, ?_⟩
      · rw [pieceCount_takePiece]
        simp only [hc, true_and]
        simp only [Bool.false_eq_true, if_false, add_zero] at c3
        omega
      · rw [takePiece_tile, tile_setTile, if_neg (fun h => hne3 hc h.1), tdest2]
      · rw [takePiece_mTurn, movePiece_mTurn]
    · rw [if_neg hc]
      refine ⟨?_, tdest2, movePiece_mTurn _ _ _⟩
      simp only [hc, false_and, if_false, add_zero]
      exact hmove
  generalize (if count = 2 then takePiece (movePiece s pos dest) mid
        else movePiece s pos dest) = s3 at hs3 ⊢
  obtain ⟨hcount, htile, hturn⟩ := hs3
  -- the crowning
  have hcrown : pieceCount f (crown s3 dest) = pieceCount f s3 := by
    unfold crown
    simp only
    by_cases hbk : dest.y = 0 ∧ s3.mTurn = PLAYERB
    · have hw : ¬ (dest.y = SIZE - 1 ∧ (s3.setTile dest BLACK_KING).mTurn = PLAYERW) := by
        rintro ⟨h1, _⟩
        rw [hbk.1] at h1
        exact absurd h1 (by decide)
      rw [if_pos hbk, if_neg hw]
      have c4 := pieceCount_setTile f s3 dest BLACK_KING hdest
      rw [htile, hB (hturn ▸ hbk.2)] at c4
      omega
    · rw [if_neg hbk]
      by_cases hwk : dest.y = SIZE - 1 ∧ s3.mTurn = PLAYERW
      · rw [if_pos hwk]
        have c4 := pieceCount_setTile f s3 dest WHITE_KING hdest
        rw [htile, hW (hturn ▸ hwk.2)] at c4
        omega
      · rw [if_neg hwk]
  rw [hcrown]
  exact hcount

/-! ## Conservation of pieces -/

theorem owner_white_iff (s : Board) (p : Vector) :
    GetPlayerForTile s p = PLAYERW ↔ isWhite (s.tile p) = true := by
  unfold GetPlayerForTile isWhite
  cases s.tile p <;> decide

theorem owner_black_iff (s : Board) (p : Vector) :
    GetPlayerForTile s p = PLAYERB ↔ isBlack (s.tile p) = true := by
  unfold GetPlayerForTile isBlack
  cases s.tile p <;> decide

theorem white_not_black (p : Piece) (h : isWhite p = true) : isBlack p = false := by
  cases p <;> first | rfl | cases h

theorem black_not_white (p : Piece) (h : isBlack p = true) : isWhite p = false := by
  cases p <;> first | rfl | cases h

/-- The numbers of white and black pieces on the grid after a validated move. -/
theorem pieceCount_after_move (s : Board) (pos : Vector) (dir count : Int)
    (hb : validateBasic s pos dir count s.mTurn = .ok ()) :
    pieceCount isWhite (applyMove s pos dir count)
        + (if count = 2 ∧ ¬ s.mTurn = PLAYERW then 1 else 0) = pieceCount isWhite s ∧
    pieceCount isBlack (applyMove s pos dir count)
        + (if count = 2 ∧ s.mTurn = PLAYERW then 1 else 0) = pieceCount isBlack s := by
  have hbb := (validateBasic_ok_iff s pos dir count s.mTurn).mp hb
  have hown := hbb.2.1
  have hmid := hbb.2.2.2.2.2.2
  have hwb : PLAYERW ≠ PLAYERB := by decide
  have hW := pieceCount_relocate isWhite s pos dir count hb rfl
    (fun ht => by
      have : isBlack (s.tile pos) = true := (owner_black_iff s pos).mp (hown.trans ht)
      rw [black_not_white _ this]; rfl)
    (fun ht => by
      have : isWhite (s.tile pos) = true := (owner_white_iff s pos).mp (hown.trans ht)
      rw [this]; rfl)
  have hB := pieceCount_relocate isBlack s pos dir count hb rfl
    (fun ht => by
      have : isBlack (s.tile pos) = true := (owner_black_iff s pos).mp (hown.trans ht)
      rw [this]; rfl)
    (fun ht => by
      have : isWhite (s.tile pos) = true := (owner_white_iff s pos).mp (hown.trans ht)
      rw [white_not_black _ this]; rfl)
  rw [pieceCount_applyMove, pieceCount_applyMove]
  by_cases hc : count = 2
  · have hm := hmid hc
    by_cases ht : s.mTurn = PLAYERW
    · rw [if_pos ht] at hm
      have hblack := (owner_black_iff s _).mp hm
      have hwhite := black_not_white _ hblack
      rw [hwhite] at hW
      rw [hblack] at hB
      simp only [hc, ht, true_and, not_true_eq_false, if_false, if_true, and_self,
        Bool.false_eq_true, and_false] at hW hB ⊢
      exact ⟨hW, hB⟩
    · rw [if_neg ht] at hm
      have hwhite := (owner_white_iff s _).mp hm
      have hblack := white_not_black _ hwhite
      rw [hwhite] at hW
      rw [hblack] at hB
      simp only [hc, ht, true_and, not_false_eq_true, if_false, if_true, and_self,
        Bool.false_eq_true, and_false] at hW hB ⊢
      exact ⟨hW, hB⟩
  · simp only [hc, false_and, if_false] at hW hB ⊢
    exact ⟨hW, hB⟩

theorem conserved_init : Conserved Board.init := by
  unfold Conserved
  decide

theorem conserved_Move (s : Board) (pos : Vector) (dir count : Int) (h : Conserved s) :
    Conserved (Move s pos dir count).2 := by
  cases hv : ValidateMove s pos dir count true s.mTurn with
  | error e => rw [Move_error s pos dir count e hv]; exact h
  | ok u =>
    rw [Move_ok s pos dir count hv]
    simp only
    have hb := ((ValidateMove_ok_iff s pos dir count true s.mTurn).mp hv).1
    obtain ⟨hW, hB⟩ := pieceCount_after_move s pos dir count hb
    have hcb := (applyMove_counters s pos dir count).1.trans (relocate_counters s pos dir count).1
    have hcw := (applyMove_counters s pos dir count).2.trans (relocate_counters s pos dir count).2
    unfold Conserved at h ⊢
    rw [hcb, hcw]
    constructor <;> omega

theorem conserved_of_reachable (s : Board) (h : Reachable s) : Conserved s := by
  induction h with
  | init => exact conserved_init
  | move s pos dir count _ ih => exact conserved_Move s pos dir count ih

/-! ## The player to move has a move -/

theorem notStuck_init : NotStuck Board.init := by
  intro _
  decide

theorem notStuck_Move (s : Board) (pos : Vector) (dir count : Int) (h : NotStuck s) :
    NotStuck (Move s pos dir count).2 := by
  cases hv : ValidateMove s pos dir count true s.mTurn with
  | error e => rw [Move_error s pos dir count e hv]; exact h
  | ok u =>
    rw [Move_ok s pos dir count hv]
    simp only
    rcases applyMove_cases s pos dir count with ⟨_, hj, happ⟩ | happ
    · rw [happ]
      intro _
      generalize hr : relocate s pos dir count = r at hj
      generalize hD : pos + (DIR dir).scale count = dest at hj
      obtain ⟨m, hm⟩ := List.exists_mem_of_ne_nil _ hj
      obtain ⟨d, _, hmd, hprobe⟩ := mem_GetJumps hm
      rw [ValidateMoveNoJump_ok_iff] at hprobe
      rw [HasValidMoves_eq_true_iff]
      refine ⟨dest, d, 2, ?_⟩
      rw [ValidateMove_ok_iff]
      refine ⟨hprobe.1, ?_, hprobe.2⟩
      intro _
      rw [validateJumpRule_ok_iff]
      right
      rw [jumpSet_of_forced _ _ hj]
      exact ⟨hmd ▸ hm, rfl⟩
    · rw [happ]
      rcases passTurn_cases (relocate s pos dir count) with ⟨_, heq⟩ | ⟨hyes, _⟩
      · intro hvic
        rw [heq] at hvic
        simp only at hvic
        split_ifs at hvic <;> exact absurd hvic (by decide)
      · intro _
        exact hyes

theorem notStuck_of_reachable (s : Board) (h : Reachable s) : NotStuck s := by
  induction h with
  | init => exact notStuck_init
  | move s pos dir count _ ih => exact notStuck_Move s pos dir count ih

/-! ## Which check rejects -/

theorem validateBasic_not_rank_error (s : Board) (pos : Vector) (dir count player : Int) :
    validateBasic s pos dir count player ≠ .error .invalidForRed ∧
    validateBasic s pos dir count player ≠ .error .invalidForBlack := by
  unfold validateBasic
  simp only
  split_ifs <;> simp

theorem validateJumpRule_not_rank_error (s : Board) (pos : Vector) (dir count player : Int) :
    validateJumpRule s pos dir count player ≠ .error .invalidForRed ∧
    validateJumpRule s pos dir count player ≠ .error .invalidForBlack := by
  unfold validateJumpRule
  simp only
  split_ifs <;> simp

theorem rank_error_from_validateRank (s : Board) (pos : Vector) (dir count : Int)
    (jump : Bool) (player : Int) (e : MoveError)
    (he : e = .invalidForRed ∨ e = .invalidForBlack)
    (h : ValidateMove s pos dir count jump player = .error e) :
    validateRank s pos dir = .error e := by
  unfold ValidateMove at h
  have hb := validateBasic_not_rank_error s pos dir count player
  have hj := validateJumpRule_not_rank_error s pos dir count player
  cases hvb : validateBasic s pos dir count player with
  | error e' =>
    rw [hvb] at h hb
    simp only [Except.error.injEq] at h
    subst h
    rcases he with he | he <;> subst he
    · exact absurd rfl hb.1
    · exact absurd rfl hb.2
  | ok u =>
    rw [hvb] at h
    simp only at h
    cases jump with
    | false => simpa using h
    | true =>
      simp only [if_true] at h
      cases hvj : validateJumpRule s pos dir count player with
      | error e' =>
        rw [hvj] at h hj
        simp only [Except.error.injEq] at h
        subst h
        rcases he with he | he <;> subst he
        · exact absurd rfl hj.1
        · exact absurd rfl hj.2
      | ok v =>
        rw [hvj] at h
        exact h

/-! ## The checked functions never fault -/

theorem readChecked_eq (s : Board) (p : Vector) (h : IsInBounds p = true) :
    readChecked s p = some (s.tile p) := by
  unfold readChecked
  rw [if_pos h]

theorem writeChecked_eq (s : Board) (p : Vector) (v : Piece) (h : IsInBounds p = true) :
    writeChecked s p v = some (s.setTile p v) := by
  unfold writeChecked
  rw [if_pos h]

theorem GetPlayerForTileChecked_eq (s : Board) (p : Vector) (h : IsInBounds p = true) :
    GetPlayerForTileChecked s p = some (GetPlayerForTile s p) := by
  unfold GetPlayerForTileChecked GetPlayerForTile
  rw [readChecked_eq s p h]
  rfl

/-- The jumped tile lies between two tiles of the board. -/
theorem midpoint_in_bounds (pos : Vector) (dir : Int) (hd : 0 ≤ dir ∧ dir < 4)
    (hp : IsInBounds pos = true) (he : IsInBounds (pos + (DIR dir).scale 2) = true) :
    IsInBounds (pos + DIR dir) = true := by
  simp only [IsInBounds, SIZE, Bool.and_eq_true, decide_eq_true_eq, add_x, add_y,
    Vector.scale] at hp he ⊢
  rcases DIR_cases hd with h | h | h | h <;> rw [h] at he ⊢ <;> simp only at he ⊢ <;> omega

theorem validateBasicChecked_eq (s : Board) (pos : Vector) (dir count player : Int) :
    validateBasicChecked s pos dir count player = some (validateBasic s pos dir count player) := by
  unfold validateBasicChecked validateBasic
  generalize (if player = PLAYERW then PLAYERB else PLAYERW) = opp
  by_cases hp : IsInBounds pos = true
  · have hp' : ¬ ((!IsInBounds pos) = true) := by simp [hp]
    rw [if_neg hp', if_neg hp', GetPlayerForTileChecked_eq s pos hp]
    simp only [Option.bind_eq_bind, Option.some_bind, Option.pure_def]
    by_cases ho : GetPlayerForTile s pos ≠ player
    · rw [if_pos ho, if_pos ho]
    · rw [if_neg ho, if_neg ho]
      by_cases hm : count > 2 ∨ count < 1 ∨ dir < 0 ∨ dir ≥ Direction.MAX
      · rw [if_pos hm, if_pos hm]
      · rw [if_neg hm, if_neg hm]
        by_cases he : IsInBounds (pos + (DIR dir).scale count) = true
        · have he' : ¬ ((!IsInBounds (pos + (DIR dir).scale count)) = true) := by simp [he]
          rw [if_neg he', readChecked_eq s _ he]
          simp only [Option.some_bind]
          by_cases ht : s.tile (pos + (DIR dir).scale count) ≠ EMPTY
          · have hcond : (!IsInBounds (pos + (DIR dir).scale count) ||
                decide (s.tile (pos + (DIR dir).scale count) ≠ EMPTY)) = true := by
              simp only [Bool.or_eq_true, decide_eq_true_eq]
              exact Or.inr ht
            rw [if_pos ht, if_pos hcond]
          · have hcond : ¬ ((!IsInBounds (pos + (DIR dir).scale count) ||
                decide (s.tile (pos + (DIR dir).scale count) ≠ EMPTY)) = true) := by
              simp only [Bool.or_eq_true, decide_eq_true_eq, not_or]
              exact ⟨he', ht⟩
            rw [if_neg ht, if_neg hcond]
            by_cases hc : count = 2
            · have hd : 0 ≤ dir ∧ dir < 4 := by
                unfold Direction.MAX at hm
                omega
              have hmid := midpoint_in_bounds pos dir hd hp (hc ▸ he)
              rw [if_pos hc, GetPlayerForTileChecked_eq s _ hmid]
              simp only [Option.some_bind]
              by_cases hj : GetPlayerForTile s (pos + DIR dir) ≠ opp
              · have hcond : count = 2 ∧ GetPlayerForTile s (pos + DIR dir) ≠ opp := ⟨hc, hj⟩
                rw [if_pos hj, if_pos hcond]
              · have hcond : ¬ (count = 2 ∧ GetPlayerForTile s (pos + DIR dir) ≠ opp) :=
                  fun h => hj h.2
                rw [if_neg hj, if_neg hcond]
            · have hcond : ¬ (count = 2 ∧ GetPlayerForTile s (pos + DIR dir) ≠ opp) :=
                fun h => hc h.1
              rw [if_neg hc, if_neg hcond]
        · have he' : (!IsInBounds (pos + (DIR dir).scale count)) = true := by simpa using he
          have hcond : (!IsInBounds (pos + (DIR dir).scale count) ||
              decide (s.tile (pos + (DIR dir).scale count) ≠ EMPTY)) = true := by
            simp only [Bool.or_eq_true]
            exact Or.inl he'
          rw [if_pos he', if_pos hcond]
  · have hp' : (!IsInBounds pos) = true := by simpa using hp
    rw [if_pos hp', if_pos hp']
    rfl

theorem validateRankChecked_eq (s : Board) (pos : Vector) (dir : Int)
    (h : IsInBounds pos = true) :
    validateRankChecked s pos dir = some (validateRank s pos dir) := by
  unfold validateRankChecked validateRank
  rw [readChecked_eq s pos h]
  rfl

theorem isInBounds_of_validateBasic (s : Board) (pos : Vector) (dir count player : Int)
    (u : Unit) (h : validateBasic s pos dir count player = .ok u) : IsInBounds pos = true :=
  ((validateBasic_ok_iff s pos dir count player).mp h).1

theorem ValidateMoveNoJumpChecked_eq (s : Board) (pos : Vector) (dir count player : Int) :
    ValidateMoveNoJumpChecked s pos dir count player
      = some (ValidateMoveNoJump s pos dir count player) := by
  unfold ValidateMoveNoJumpChecked ValidateMoveNoJump
  rw [validateBasicChecked_eq]
  simp only [Option.bind_eq_bind, Option.some_bind]
  cases hb : validateBasic s pos dir count player with
  | error e => rfl
  | ok u => exact validateRankChecked_eq s pos dir (isInBounds_of_validateBasic _ _ _ _ _ u hb)

theorem foldlM_eq_some {α β : Type} (f : β → α → β) (g : β → α → Option β) (l : List α)
    (h : ∀ b a, a ∈ l → g b a = some (f b a)) (init : β) :
    l.foldlM g init = some (l.foldl f init) := by
  induction l generalizing init with
  | nil => rfl
  | cons a rest ih =>
    rw [List.foldlM_cons, h init a (List.mem_cons_self _ _)]
    simp only [Option.bind_eq_bind, Option.some_bind, List.foldl_cons]
    exact ih (fun b a' ha' => h b a' (List.mem_cons_of_mem _ ha')) _

theorem GetJumpsChecked_eq (s : Board) (pos : Vector) :
    GetJumpsChecked s pos = some (GetJumps s pos) := by
  unfold GetJumpsChecked GetJumps
  apply foldlM_eq_some
  intro jumps dir _
  rw [ValidateMoveNoJumpChecked_eq]
  rfl

theorem jumpSetChecked_eq (s : Board) (player : Int) :
    jumpSetChecked s player = some (jumpSet s player) := by
  unfold jumpSetChecked jumpSet
  split_ifs
  · apply foldlM_eq_some
    intro jumps tmp htmp
    rw [GetPlayerForTileChecked_eq s tmp (isInBounds_of_mem_allPositions htmp)]
    simp only [Option.bind_eq_bind, Option.some_bind]
    split_ifs
    · rfl
    · rw [GetJumpsChecked_eq]
      rfl
  · rfl

theorem validateJumpRuleChecked_eq (s : Board) (pos : Vector) (dir count player : Int) :
    validateJumpRuleChecked s pos dir count player
      = some (validateJumpRule s pos dir count player) := by
  unfold validateJumpRuleChecked validateJumpRule
  rw [jumpSetChecked_eq]
  rfl

theorem ValidateMoveChecked_eq (s : Board) (pos : Vector) (dir count : Int) (jump : Bool)
    (player : Int) :
    ValidateMoveChecked s pos dir count jump player
      = some (ValidateMove s pos dir count jump player) := by
  unfold ValidateMoveChecked ValidateMove
  rw [validateBasicChecked_eq]
  simp only [Option.bind_eq_bind, Option.some_bind]
  cases hb : validateBasic s pos dir count player with
  | error e => rfl
  | ok u =>
    have hp := isInBounds_of_validateBasic _ _ _ _ _ u hb
    cases jump with
    | false =>
      simp only [Bool.false_eq_true, if_false, Option.pure_def, Option.some_bind]
      exact validateRankChecked_eq s pos dir hp
    | true =>
      simp only [if_true, validateJumpRuleChecked_eq, Option.some_bind]
      cases hj : validateJumpRule s pos dir count player with
      | error e => rfl
      | ok v => exact validateRankChecked_eq s pos dir hp

theorem foldl_append_flatMap {α β : Type} (F : α → List β) (l : List α) (init : List β) :
    l.foldl (fun acc x => acc ++ F x) init = init ++ l.flatMap F := by
  induction l generalizing init with
  | nil => simp
  | cons a rest ih =>
    rw [List.foldl_cons, ih, List.flatMap_cons, List.append_assoc]

theorem countLoopChecked_eq (s : Board) (player : Int) (pos : Vector) (i : Int)
    (moves : List (Vector × Int × Int)) :
    ([1, 2] : List Int).foldlM
        (fun moves c => do
          let r ← ValidateMoveChecked s pos i c true player
          pure (match r with
            | .ok _ => moves ++ [(pos, i, c)]
            | .error _ => moves))
        moves
      = some (moves ++ ([1, 2] : List Int).flatMap fun c =>
          match ValidateMove s pos i c true player with
          | .ok _ => [(pos, i, c)]
          | .error _ => []) := by
  rw [← foldl_append_flatMap]
  apply foldlM_eq_some
  intro b c _
  rw [ValidateMoveChecked_eq]
  simp only [Option.bind_eq_bind, Option.some_bind, Option.pure_def]
  cases ValidateMove s pos i c true player <;> simp

theorem directionLoopChecked_eq (s : Board) (player : Int) (pos : Vector)
    (moves : List (Vector × Int × Int)) :
    allDirections.foldlM
        (fun moves i =>
          ([1, 2] : List Int).foldlM
            (fun moves c => do
              let r ← ValidateMoveChecked s pos i c true player
              pure (match r with
                | .ok _ => moves ++ [(pos, i, c)]
                | .error _ => moves))
            moves)
        moves
      = some (moves ++ allDirections.flatMap fun i =>
          ([1, 2] : List Int).flatMap fun c =>
            match ValidateMove s pos i c true player with
            | .ok _ => [(pos, i, c)]
            | .error _ => []) := by
  rw [← foldl_append_flatMap]
  apply foldlM_eq_some
  intro b i _
  exact countLoopChecked_eq s player pos i b

theorem GetValidMovesChecked_eq (s : Board) (player : Int) :
    GetValidMovesChecked s player = some (GetValidMoves s player) := by
  unfold GetValidMovesChecked GetValidMoves
  have h := foldl_append_flatMap
    (fun pos =>
      if GetPlayerForTile s pos ≠ player then ([] : List (Vector × Int × Int))
      else
        allDirections.flatMap fun i =>
          ([1, 2] : List Int).flatMap fun c =>
            match ValidateMove s pos i c true player with
            | .ok _ => [(pos, i, c)]
            | .error _ => [])
    allPositions []
  rw [List.nil_append] at h
  rw [← h]
  apply foldlM_eq_some
  intro b pos hpos
  rw [GetPlayerForTileChecked_eq s pos (isInBounds_of_mem_allPositions hpos)]
  simp only [Option.bind_eq_bind, Option.some_bind, Option.pure_def]
  split_ifs
  · simp
  · exact directionLoopChecked_eq s player pos b

theorem HasValidMovesChecked_eq (s : Board) (player : Int) :
    HasValidMovesChecked s player = some (HasValidMoves s player) := by
  unfold HasValidMovesChecked HasValidMoves
  rw [GetValidMovesChecked_eq]
  rfl

theorem relocateChecked_eq (s : Board) (pos : Vector) (dir count player : Int)
    (hb : validateBasic s pos dir count player = .ok ()) :
    relocateChecked s pos dir count = some (relocate s pos dir count) := by
  obtain ⟨hp, hdest, hmid, _, _, _⟩ := geometry_of_valid s pos dir count player hb
  unfold relocateChecked relocate movePiece takePiece crown
  simp only [Option.bind_eq_bind, Option.pure_def]
  rw [readChecked_eq s pos hp, Option.some_bind, writeChecked_eq _ _ _ hdest, Option.some_bind,
    writeChecked_eq _ _ _ hp, Option.some_bind]
  by_cases hc : count = 2
  · simp only [hc, if_true, writeChecked_eq _ _ _ (hmid hc), Option.some_bind]
    rw [hc] at hdest
    split_ifs <;> simp only [Option.some_bind, writeChecked_eq _ _ _ hdest] <;>
      split_ifs <;> rfl
  · simp only [hc, if_false, Option.some_bind]
    split_ifs <;> simp only [Option.some_bind, writeChecked_eq _ _ _ hdest] <;>
      split_ifs <;> rfl

theorem passTurnChecked_eq (s : Board) : passTurnChecked s = some (passTurn s) := by
  unfold passTurnChecked passTurn
  simp only [HasValidMovesChecked_eq, Option.bind_eq_bind, Option.some_bind, Option.pure_def]

theorem applyMoveChecked_eq (s : Board) (pos : Vector) (dir count player : Int)
    (hb : validateBasic s pos dir count player = .ok ()) :
    applyMoveChecked s pos dir count = some (applyMove s pos dir count) := by
  unfold applyMoveChecked applyMove
  simp only [relocateChecked_eq s pos dir count player hb, GetJumpsChecked_eq,
    Option.bind_eq_bind, Option.some_bind, Option.pure_def]
  split_ifs
  · rfl
  · exact passTurnChecked_eq _

theorem MoveChecked_eq (s : Board) (pos : Vector) (dir count : Int) :
    MoveChecked s pos dir count = some (Move s pos dir count) := by
  unfold MoveChecked Move
  rw [ValidateMoveChecked_eq]
  simp only [Option.bind_eq_bind, Option.some_bind]
  cases hv : ValidateMove s pos dir count true s.mTurn with
  | error e => rfl
  | ok u =>
    have hb := ((ValidateMove_ok_iff s pos dir count true s.mTurn).mp hv).1
    simp only [applyMoveChecked_eq s pos dir count s.mTurn hb, Option.some_bind, Option.pure_def]

/-! ## The claims -/

set_option maxRecDepth 1000000

/-- C1 (fails on the code): after black B3-C4, white C6-D5, black F3-E4 the forced-jump
set is empty and the white man on D5 has two captures, over C4 and over E4.  The set
built by `ValidateMove` keeps C4 and drops E4, which `Vector::operator<` ranks as
equivalent to it, so the capture over E4 passes without the jump rule and is rejected
with it, and `Move` refuses it. -/
theorem second_capture_refused :
    Reachable boardTwoCaptures ∧
    boardTwoCaptures.mForcedJumps = [] ∧
    boardTwoCaptures.mTurn = PLAYERW ∧
    boardTwoCaptures.mVictor = -1 ∧
    ValidateMove boardTwoCaptures ⟨3, 3⟩ Direction.DL 2 false boardTwoCaptures.mTurn = .ok () ∧
    ValidateMove boardTwoCaptures ⟨3, 3⟩ Direction.DR 2 false boardTwoCaptures.mTurn = .ok () ∧
    ValidateMove boardTwoCaptures ⟨3, 3⟩ Direction.DR 2 true boardTwoCaptures.mTurn
      = .error (.mustJump [⟨2, 4⟩]) ∧
    Move boardTwoCaptures ⟨3, 3⟩ Direction.DR 2
      = (.error (.mustJump [⟨2, 4⟩]), boardTwoCaptures) :=
  ⟨reachable_playMoves _ _ Reachable.init, by decide, by decide, by decide, by decide,
    by decide, by decide, by decide⟩

/-- C2, counterexample: in a reachable position the white man on H7 jumps to F5 and
must go on (the forced-jump set becomes `{E4}`, the turn stays with white); the next
`Move` is accepted from D5, a different white man that also attacks E4. -/
theorem other_piece_continues :
    Reachable boardSharedVictim ∧
    (Move boardSharedVictim ⟨7, 1⟩ Direction.DL 2).1 = .ok () ∧
    (Move boardSharedVictim ⟨7, 1⟩ Direction.DL 2).2.mForcedJumps = [⟨4, 4⟩] ∧
    (Move boardSharedVictim ⟨7, 1⟩ Direction.DL 2).2.mTurn = boardSharedVictim.mTurn ∧
    (⟨7, 1⟩ : Vector) + (DIR Direction.DL).scale 2 = ⟨5, 3⟩ ∧
    (Move (Move boardSharedVictim ⟨7, 1⟩ Direction.DL 2).2 ⟨3, 3⟩ Direction.DR 2).1 = .ok () ∧
    (⟨3, 3⟩ : Vector) ≠ ⟨5, 3⟩ := by
  refine ⟨reachable_playMoves _ _ Reachable.init, ?_, ?_, ?_, ?_, ?_, ?_⟩ <;> decide

/-- C2, amended: after a successful jump that left the forced-jump set non-empty the
turn is unchanged, every tile of the set is diagonally adjacent to the landing tile,
and every `Move` accepted next is a 2-step jump over one of the tiles of the set;
any other jump and every 1-step move is rejected.  (The origin of that jump need not
be the landing tile.) -/
theorem continuation_jumps_recorded_tile (s : Board) (pos : Vector) (dir : Int)
    (hok : (Move s pos dir 2).1 = .ok ())
    (hfj : (Move s pos dir 2).2.mForcedJumps ≠ []) :
    (Move s pos dir 2).2.mTurn = s.mTurn ∧
    (∀ m, m ∈ (Move s pos dir 2).2.mForcedJumps →
      ∃ d, d ∈ allDirections ∧ m = (pos + (DIR dir).scale 2) + DIR d) ∧
    (∀ (pos' : Vector) (dir' count' : Int),
      (Move (Move s pos dir 2).2 pos' dir' count').1 = .ok () →
        count' = 2 ∧ (pos' + DIR dir') ∈ (Move s pos dir 2).2.mForcedJumps) := by
  rw [Move_fst] at hok
  rw [Move_ok s pos dir 2 hok] at hfj ⊢
  simp only at hfj ⊢
  rcases applyMove_cases s pos dir 2 with ⟨_, _, happ⟩ | happ
  · have hturn : (applyMove s pos dir 2).mTurn = s.mTurn := by
      rw [happ]
      exact relocate_mTurn s pos dir 2
    have hset : (applyMove s pos dir 2).mForcedJumps =
        GetJumps (relocate s pos dir 2) (pos + (DIR dir).scale 2) := by
      rw [happ]
    refine ⟨hturn, ?_, ?_⟩
    · intro m hm
      rw [hset] at hm
      obtain ⟨d, hd, hmd, _⟩ := mem_GetJumps hm
      exact ⟨d, hd, hmd⟩
    · intro pos' dir' count' hacc
      rw [Move_fst, ValidateMove_ok_iff] at hacc
      have hrule := hacc.2.1 rfl
      rw [validateJumpRule_ok_iff, jumpSet_of_forced _ _ hfj] at hrule
      rcases hrule with h0 | ⟨hmem, hc⟩
      · exact absurd h0 hfj
      · exact ⟨hc, hmem⟩
  · rw [happ, passTurn_mForcedJumps] at hfj
    exact absurd rfl hfj

/-- C2, amended, at the jump H7-F5 of `boardSharedVictim`. -/
theorem continuation_jumps_recorded_tile_witness :
    (Move boardSharedVictim ⟨7, 1⟩ 2 2).1 = .ok () ∧
    (Move boardSharedVictim ⟨7, 1⟩ 2 2).2.mForcedJumps ≠ [] ∧
    (Move boardSharedVictim ⟨7, 1⟩ 2 2).2.mTurn = boardSharedVictim.mTurn ∧
    (∀ (pos' : Vector) (dir' count' : Int),
      (Move (Move boardSharedVictim ⟨7, 1⟩ 2 2).2 pos' dir' count').1 = .ok () →
        count' = 2 ∧ (pos' + DIR dir') ∈ (Move boardSharedVictim ⟨7, 1⟩ 2 2).2.mForcedJumps) :=
  ⟨by decide, by decide,
    (continuation_jumps_recorded_tile boardSharedVictim ⟨7, 1⟩ 2 (by decide) (by decide)).1,
    (continuation_jumps_recorded_tile boardSharedVictim ⟨7, 1⟩ 2 (by decide) (by decide)).2.2⟩

/-- C3, counterexample: in a reachable position where the white man on D5 has a
jump, the 1-step move B7-A6 of white, whose destination is occupied, is rejected with
"End position is invalid.", not with the mandatory-jump message. -/
theorem blocked_step_not_mandatory_jump :
    Reachable boardTwoCaptures ∧
    GetPlayerForTile boardTwoCaptures ⟨3, 3⟩ = boardTwoCaptures.mTurn ∧
    GetJumps boardTwoCaptures ⟨3, 3⟩ ≠ [] ∧
    ValidateMove boardTwoCaptures ⟨1, 1⟩ Direction.DL 1 true boardTwoCaptures.mTurn
      = .error .endInvalid ∧
    (∀ js, ValidateMove boardTwoCaptures ⟨1, 1⟩ Direction.DL 1 true boardTwoCaptures.mTurn
      ≠ .error (.mustJump js)) := by
  have h : ValidateMove boardTwoCaptures ⟨1, 1⟩ Direction.DL 1 true boardTwoCaptures.mTurn
      = .error .endInvalid := by decide
  refine ⟨reachable_playMoves _ _ Reachable.init, by decide, by decide, h, ?_⟩
  intro js hjs
  rw [h] at hjs
  cases hjs

/-- C3, amended: if `GetJumps` is non-empty for some tile, every 1-step
`ValidateMove` with the jump rule enforced fails for the player to move.  The reason
is the mandatory-jump violation exactly when the move passes the checks made before
the jump rule (origin on the board and owned by the player, direction in 0..3,
destination on the board and empty), whatever the direction rule says; a move that
fails one of those checks is rejected with the reason of that check. -/
theorem step_rejected_when_jump_available (s : Board) (q : Vector)
    (hq : GetJumps s q ≠ []) (pos : Vector) (dir : Int) :
    ∃ e, ValidateMove s pos dir 1 true s.mTurn = .error e ∧
      ((IsInBounds pos = true ∧ GetPlayerForTile s pos = s.mTurn ∧ (0 ≤ dir ∧ dir < 4) ∧
          IsInBounds (pos + DIR dir) = true ∧ s.tile (pos + DIR dir) = EMPTY) →
        e = .mustJump (jumpSet s s.mTurn)) ∧
      (¬ (IsInBounds pos = true ∧ GetPlayerForTile s pos = s.mTurn ∧ (0 ≤ dir ∧ dir < 4) ∧
          IsInBounds (pos + DIR dir) = true ∧ s.tile (pos + DIR dir) = EMPTY) →
        validateBasic s pos dir 1 s.mTurn = .error e ∧ ∀ js, e ≠ .mustJump js) := by
  obtain ⟨hqb, hqo⟩ := isInBounds_owner_of_GetJumps s q hq
  have hne : jumpSet s s.mTurn ≠ [] := jumpSet_ne_nil_of_jump s s.mTurn q hqb hqo hq
  have hrule : validateJumpRule s pos dir 1 s.mTurn = .error (.mustJump (jumpSet s s.mTurn)) := by
    unfold validateJumpRule
    cases hj : jumpSet s s.mTurn with
    | nil => exact absurd hj hne
    | cons a l => simp
  have hbasic := validateBasic_ok_iff s pos dir 1 s.mTurn
  rw [scale_one] at hbasic
  cases hb : validateBasic s pos dir 1 s.mTurn with
  | error e =>
    refine ⟨e, ?_, ?_, ?_⟩
    · unfold ValidateMove
      rw [hb]
    · intro hc
      have : validateBasic s pos dir 1 s.mTurn = .ok () :=
        hbasic.mpr ⟨hc.1, hc.2.1, Or.inl rfl, hc.2.2.1, hc.2.2.2.1, hc.2.2.2.2, by simp⟩
      rw [hb] at this
      cases this
    · intro _
      refine ⟨rfl, ?_⟩
      intro js hjs
      rw [hjs] at hb
      exact validateBasic_not_mustJump _ _ _ _ _ _ hb
  | ok u =>
    refine ⟨.mustJump (jumpSet s s.mTurn), ?_, ?_, ?_⟩
    · unfold ValidateMove
      rw [hb]
      simp only [if_true]
      rw [hrule]
    · intro _
      rfl
    · intro hc
      have h := hbasic.mp hb
      exact absurd ⟨h.1, h.2.1, h.2.2.2.1, h.2.2.2.2.1, h.2.2.2.2.2.1⟩ hc

/-- C3, amended, at the position of the counterexample: the open step A6-B5 of white
is rejected with the mandatory-jump message. -/
theorem step_rejected_when_jump_available_witness :
    GetJumps boardTwoCaptures ⟨3, 3⟩ ≠ [] ∧
    ∃ e, ValidateMove boardTwoCaptures ⟨0, 2⟩ 3 1 true boardTwoCaptures.mTurn = .error e ∧
      ((IsInBounds ⟨0, 2⟩ = true ∧
          GetPlayerForTile boardTwoCaptures ⟨0, 2⟩ = boardTwoCaptures.mTurn ∧
          ((0 : Int) ≤ 3 ∧ (3 : Int) < 4) ∧
          IsInBounds (⟨0, 2⟩ + DIR 3) = true ∧
          boardTwoCaptures.tile (⟨0, 2⟩ + DIR 3) = EMPTY) →
        e = .mustJump (jumpSet boardTwoCaptures boardTwoCaptures.mTurn)) ∧
      (¬ (IsInBounds ⟨0, 2⟩ = true ∧
          GetPlayerForTile boardTwoCaptures ⟨0, 2⟩ = boardTwoCaptures.mTurn ∧
          ((0 : Int) ≤ 3 ∧ (3 : Int) < 4) ∧
          IsInBounds (⟨0, 2⟩ + DIR 3) = true ∧
          boardTwoCaptures.tile (⟨0, 2⟩ + DIR 3) = EMPTY) →
        validateBasic boardTwoCaptures ⟨0, 2⟩ 3 1 boardTwoCaptures.mTurn = .error e ∧
          ∀ js, e ≠ .mustJump js) :=
  ⟨by decide, step_rejected_when_jump_available boardTwoCaptures ⟨3, 3⟩ (by decide) ⟨0, 2⟩ 3⟩

/-- C4 (fails on the code): after black D3-C4, white C6-B5 it is black's turn, the
forced-jump set is empty and the white man on B5 can capture C4.  `GetJumps` probes
for `mTurn`, not for the player passed in, so for white it finds no jump and
`GetValidMoves(PLAYERW)` still lists 1-step moves, e.g. B7-C6. -/
theorem idle_player_steps_despite_capture :
    Reachable boardIdleCapture ∧
    boardIdleCapture.mTurn = PLAYERB ∧
    boardIdleCapture.mForcedJumps = [] ∧
    ValidateMove boardIdleCapture ⟨1, 3⟩ Direction.DR 2 false PLAYERW = .ok () ∧
    jumpSet boardIdleCapture PLAYERW = [] ∧
    ValidateMove boardIdleCapture ⟨1, 1⟩ Direction.DR 1 true PLAYERW = .ok () ∧
    ((⟨1, 1⟩, Direction.DR, 1) : Vector × Int × Int) ∈ GetValidMoves boardIdleCapture PLAYERW := by
  refine ⟨reachable_playMoves _ _ Reachable.init, ?_, ?_, ?_, ?_, ?_, ?_⟩ <;> decide

/-- C5 (fails on the code): in a reachable position the white man on A6 jumps to C4,
from where two further captures are available, over B3 and over D3.  The turn stays
with white and the victor stays unset, but the forced-jump set is `{B3}` only: D3 is
dropped by the set, whose comparison `Vector::operator<` ranks it as equivalent. -/
theorem forked_continuation_half_recorded :
    Reachable boardForkedJump ∧
    (Move boardForkedJump ⟨0, 2⟩ Direction.DR 2).1 = .ok () ∧
    (⟨0, 2⟩ : Vector) + (DIR Direction.DR).scale 2 = ⟨2, 4⟩ ∧
    ValidateMove (Move boardForkedJump ⟨0, 2⟩ Direction.DR 2).2 ⟨2, 4⟩ Direction.DL 2 false
      boardForkedJump.mTurn = .ok () ∧
    ValidateMove (Move boardForkedJump ⟨0, 2⟩ Direction.DR 2).2 ⟨2, 4⟩ Direction.DR 2 false
      boardForkedJump.mTurn = .ok () ∧
    (⟨2, 4⟩ : Vector) + DIR Direction.DR = ⟨3, 5⟩ ∧
    (Move boardForkedJump ⟨0, 2⟩ Direction.DR 2).2.mForcedJumps = [⟨1, 5⟩] ∧
    (Move boardForkedJump ⟨0, 2⟩ Direction.DR 2).2.mTurn = boardForkedJump.mTurn ∧
    (Move boardForkedJump ⟨0, 2⟩ Direction.DR 2).2.mVictor = boardForkedJump.mVictor := by
  refine ⟨reachable_playMoves _ _ Reachable.init, ?_, ?_, ?_, ?_, ?_, ?_, ?_, ?_⟩ <;> decide

/-- C6: after a successful `Move` in a reachable state, if the turn passed then the
victor is the player who just moved exactly when the new player to move has no valid
move in the resulting state, and it is unset when that player has one; if the turn
did not pass (a continuation was recorded) the victor is unset as before. -/
theorem victor_set_iff_opponent_stuck (s : Board) (hr : Reachable s) (pos : Vector)
    (dir count : Int) (hok : (Move s pos dir count).1 = .ok ()) :
    s.mVictor = -1 ∧
    ((Move s pos dir count).2.mTurn ≠ s.mTurn →
      ((Move s pos dir count).2.mVictor = s.mTurn ↔
        HasValidMoves (Move s pos dir count).2 (Move s pos dir count).2.mTurn = false) ∧
      (HasValidMoves (Move s pos dir count).2 (Move s pos dir count).2.mTurn = true →
        (Move s pos dir count).2.mVictor = -1)) ∧
    ((Move s pos dir count).2.mTurn = s.mTurn →
      (Move s pos dir count).2.mForcedJumps ≠ [] ∧
      (Move s pos dir count).2.mVictor = -1) ∧
    ((Move s pos dir count).2.mTurn ≠ s.mTurn ↔ (Move s pos dir count).2.mForcedJumps = []) := by
  have hs := settled_of_reachable s hr
  rw [Move_fst] at hok
  have hvic : s.mVictor = -1 := by
    by_contra hne
    exact (hs.2 hne).2.2 pos dir count hok
  rw [Move_ok s pos dir count hok]
  simp only
  refine ⟨hvic, ?_⟩
  rcases applyMove_cases s pos dir count with ⟨_, hj, happ⟩ | happ
  · have ht : (applyMove s pos dir count).mTurn = s.mTurn := by
      rw [happ]; exact relocate_mTurn s pos dir count
    have hf : (applyMove s pos dir count).mForcedJumps ≠ [] := by
      rw [happ]; exact hj
    have hv : (applyMove s pos dir count).mVictor = -1 := by
      rw [happ]
      show (relocate s pos dir count).mVictor = -1
      rw [relocate_mVictor]; exact hvic
    refine ⟨fun hne => absurd ht hne, fun _ => ⟨hf, hv⟩, ?_⟩
    constructor
    · intro hne; exact absurd ht hne
    · intro h0; exact absurd h0 hf
  · rw [happ]
    have hrt := relocate_mTurn s pos dir count
    have hrv := relocate_mVictor s pos dir count
    generalize relocate s pos dir count = r at hrt hrv
    have hflip : (if r.mTurn = PLAYERB then PLAYERW else PLAYERB) ≠ s.mTurn := by
      rw [hrt]
      rcases hs.1 with h | h <;> rw [h] <;> decide
    have hmover : (if (if r.mTurn = PLAYERB then PLAYERW else PLAYERB) = PLAYERB then PLAYERW
        else PLAYERB) = s.mTurn := by
      rw [hrt]
      rcases hs.1 with h | h <;> rw [h] <;> decide
    rcases passTurn_cases r with ⟨hno, heq⟩ | ⟨hyes, heq⟩
    · have hturn : (passTurn r).mTurn ≠ s.mTurn := by rw [heq]; exact hflip
      have hvv : (passTurn r).mVictor = s.mTurn := by rw [heq]; exact hmover
      refine ⟨fun _ => ⟨⟨fun _ => hno, fun _ => hvv⟩, ?_⟩, fun h => absurd h hturn, ?_⟩
      · intro hy
        rw [hno] at hy
        cases hy
      · exact ⟨fun _ => passTurn_mForcedJumps r, fun _ => hturn⟩
    · have hturn : (passTurn r).mTurn ≠ s.mTurn := by rw [heq]; exact hflip
      have hvv : (passTurn r).mVictor = -1 := by
        rw [heq]
        show r.mVictor = -1
        rw [hrv]; exact hvic
      refine ⟨fun _ => ⟨⟨?_, ?_⟩, fun _ => hvv⟩, fun h => absurd h hturn, ?_⟩
      · intro hm
        exfalso
        rw [hvv] at hm
        rcases hs.1 with h | h <;> rw [h] at hm <;> exact absurd hm (by decide)
      · intro hn
        rw [hyes] at hn
        cases hn
      · exact ⟨fun _ => passTurn_mForcedJumps r, fun _ => hturn⟩

/-- C6 at the last move of `gameBlackWins`: black takes the last white man, the turn
passes to white, who has no valid move, and black is the victor. -/
theorem victor_set_iff_opponent_stuck_witness :
    Reachable boardBeforeWin ∧
    (Move boardBeforeWin ⟨5, 3⟩ 1 2).1 = .ok () ∧
    ((Move boardBeforeWin ⟨5, 3⟩ 1 2).2.mTurn ≠ boardBeforeWin.mTurn →
      ((Move boardBeforeWin ⟨5, 3⟩ 1 2).2.mVictor = boardBeforeWin.mTurn ↔
        HasValidMoves (Move boardBeforeWin ⟨5, 3⟩ 1 2).2
          (Move boardBeforeWin ⟨5, 3⟩ 1 2).2.mTurn = false) ∧
      (HasValidMoves (Move boardBeforeWin ⟨5, 3⟩ 1 2).2
          (Move boardBeforeWin ⟨5, 3⟩ 1 2).2.mTurn = true →
        (Move boardBeforeWin ⟨5, 3⟩ 1 2).2.mVictor = -1)) :=
  ⟨reachable_playMoves _ _ Reachable.init, by decide,
    (victor_set_iff_opponent_stuck boardBeforeWin (reachable_playMoves _ _ Reachable.init)
      ⟨5, 3⟩ 1 2 (by decide)).2.1⟩

/-- C7: in a reachable state with a victor set, every `Move` is rejected and returns
the state as it was, so no sequence of further calls changes the state or the
victor. -/
theorem terminal_is_absorbing (s : Board) (hr : Reachable s) (hv : s.mVictor ≠ -1) :
    (∀ (pos : Vector) (dir count : Int),
      (∃ e, (Move s pos dir count).1 = .error e) ∧ (Move s pos dir count).2 = s) ∧
    (∀ ms : List (Vector × Int × Int),
      playMoves s ms = s ∧ (playMoves s ms).mVictor = s.mVictor) := by
  have hs := settled_of_reachable s hr
  have hno := (hs.2 hv).2.2
  have hone : ∀ (pos : Vector) (dir count : Int),
      (∃ e, (Move s pos dir count).1 = .error e) ∧ (Move s pos dir count).2 = s := by
    intro pos dir count
    cases hval : ValidateMove s pos dir count true s.mTurn with
    | ok u => exact absurd hval (hno pos dir count)
    | error e =>
      rw [Move_error s pos dir count e hval]
      exact ⟨⟨e, rfl⟩, rfl⟩
  refine ⟨hone, ?_⟩
  intro ms
  have hall : playMoves s ms = s := by
    induction ms with
    | nil => rfl
    | cons m rest ih =>
      obtain ⟨pos, dir, count⟩ := m
      show playMoves (Move s pos dir count).2 rest = s
      rw [(hone pos dir count).2]
      exact ih
  exact ⟨hall, by rw [hall]⟩

/-- C7 at the final position of `gameBlackWins`, where black is the victor. -/
theorem terminal_is_absorbing_witness :
    Reachable boardBlackWins ∧ boardBlackWins.mVictor ≠ -1 ∧
    (∀ (pos : Vector) (dir count : Int),
      (∃ e, (Move boardBlackWins pos dir count).1 = .error e) ∧
      (Move boardBlackWins pos dir count).2 = boardBlackWins) :=
  ⟨reachable_playMoves _ _ Reachable.init, by decide,
    (terminal_is_absorbing boardBlackWins (reachable_playMoves _ _ Reachable.init)
      (by decide)).1⟩

/-- C8: `Move` returns what `ValidateMove` returns for the player to move, and when
that is a rejection the grid, the turn, the victor, both capture counters and the
forced-jump set are what they were before the call. -/
theorem rejected_move_changes_nothing (s : Board) (pos : Vector) (dir count : Int)
    (e : MoveError) (h : (Move s pos dir count).1 = .error e) :
    ValidateMove s pos dir count true s.mTurn = .error e ∧
    (Move s pos dir count).2.mBoard = s.mBoard ∧
    (Move s pos dir count).2.mTurn = s.mTurn ∧
    (Move s pos dir count).2.mVictor = s.mVictor ∧
    (Move s pos dir count).2.mBlackCaptured = s.mBlackCaptured ∧
    (Move s pos dir count).2.mWhiteCaptured = s.mWhiteCaptured ∧
    (Move s pos dir count).2.mForcedJumps = s.mForcedJumps ∧
    (Move s pos dir count).2 = s := by
  rw [Move_fst] at h
  rw [Move_error s pos dir count e h]
  exact ⟨h, rfl, rfl, rfl, rfl, rfl, rfl, rfl⟩

/-- C8 on the fresh board: black may not move the white man on A8. -/
theorem rejected_move_changes_nothing_witness :
    (Move Board.init ⟨0, 0⟩ 3 1).1 = .error .cannotMovePiece ∧
    (Move Board.init ⟨0, 0⟩ 3 1).2 = Board.init :=
  ⟨by decide,
    (rejected_move_changes_nothing Board.init ⟨0, 0⟩ 3 1 .cannotMovePiece
      (by decide)).2.2.2.2.2.2.2⟩

/-- C9: for a player in {black, white} and a direction in 0..3, the 1-step
`ValidateMove` without the jump rule succeeds exactly when the origin is on the board
and holds a piece of the player, the destination `p + DIR[d]` is on the board and
empty, and the piece is a king, or a white man moving DL or DR, or a black man
moving UL or UR. -/
theorem step_valid_iff (s : Board) (player : Int) (p : Vector) (d : Int)
    (hpl : player = PLAYERB ∨ player = PLAYERW) (hd : 0 ≤ d ∧ d ≤ 3) :
    ValidateMove s p d 1 false player = .ok () ↔
      IsInBounds p = true ∧ GetPlayerForTile s p = player ∧
      IsInBounds (p + DIR d) = true ∧ s.tile (p + DIR d) = EMPTY ∧
      ((s.tile p = WHITE_KING ∨ s.tile p = BLACK_KING) ∨
        (s.tile p = WHITE ∧ (d = Direction.DL ∨ d = Direction.DR)) ∨
        (s.tile p = BLACK ∧ (d = Direction.UL ∨ d = Direction.UR))) := by
  rw [ValidateMove_ok_iff, validateBasic_ok_iff, validateRank_ok_iff, scale_one]
  constructor
  · rintro ⟨⟨h1, h2, _, _, h5, h6, _⟩, _, hw, hb⟩
    refine ⟨h1, h2, h5, h6, ?_⟩
    unfold GetPlayerForTile at h2
    cases ht : s.tile p with
    | EMPTY =>
      rw [ht] at h2
      simp only at h2
      rcases hpl with h | h <;> rw [h] at h2 <;> exact absurd h2 (by decide)
    | WHITE => exact Or.inr (Or.inl ⟨rfl, hw ht⟩)
    | BLACK => exact Or.inr (Or.inr ⟨rfl, hb ht⟩)
    | WHITE_KING => exact Or.inl (Or.inl rfl)
    | BLACK_KING => exact Or.inl (Or.inr rfl)
  · rintro ⟨h1, h2, h5, h6, hk⟩
    refine ⟨⟨h1, h2, Or.inl rfl, ⟨hd.1, by omega⟩, h5, h6, by simp⟩, by simp, ?_, ?_⟩
    · intro ht
      rcases hk with (hk | hk) | ⟨_, hk⟩ | ⟨hk, _⟩
      · rw [ht] at hk; cases hk
      · rw [ht] at hk; cases hk
      · exact hk
      · rw [ht] at hk; cases hk
    · intro ht
      rcases hk with (hk | hk) | ⟨hk, _⟩ | ⟨_, hk⟩
      · rw [ht] at hk; cases hk
      · rw [ht] at hk; cases hk
      · rw [ht] at hk; cases hk
      · exact hk

/-- C9 on the fresh board, for black, the man on B3 and the direction UL. -/
theorem step_valid_iff_witness :
    (PLAYERB = PLAYERB ∨ PLAYERB = PLAYERW) ∧ ((0 : Int) ≤ 0 ∧ (0 : Int) ≤ 3) ∧
    (ValidateMove Board.init ⟨1, 5⟩ 0 1 false PLAYERB = .ok () ↔
      IsInBounds ⟨1, 5⟩ = true ∧ GetPlayerForTile Board.init ⟨1, 5⟩ = PLAYERB ∧
      IsInBounds (⟨1, 5⟩ + DIR 0) = true ∧ Board.init.tile (⟨1, 5⟩ + DIR 0) = EMPTY ∧
      ((Board.init.tile ⟨1, 5⟩ = WHITE_KING ∨ Board.init.tile ⟨1, 5⟩ = BLACK_KING) ∨
        (Board.init.tile ⟨1, 5⟩ = WHITE ∧ ((0 : Int) = Direction.DL ∨ (0 : Int) = Direction.DR)) ∨
        (Board.init.tile ⟨1, 5⟩ = BLACK ∧
          ((0 : Int) = Direction.UL ∨ (0 : Int) = Direction.UR)))) :=
  ⟨Or.inl rfl, ⟨le_refl _, by decide⟩,
    step_valid_iff Board.init PLAYERB ⟨1, 5⟩ 0 (Or.inl rfl) ⟨le_refl _, by decide⟩⟩

/-- C10: after a successful `Move` the destination holds the moved king if a king
was moved; a white man becomes a white king on row 7 and stays a white man on any
other row; a black man becomes a black king on row 0 and stays a black man on any
other row; and no tile that held a king holds a man of that colour afterwards. -/
theorem crowning_and_king_persistence (s : Board) (pos : Vector) (dir count : Int)
    (hok : (Move s pos dir count).1 = .ok ()) :
    ((s.tile pos = WHITE_KING ∨ s.tile pos = BLACK_KING) →
      (Move s pos dir count).2.tile (pos + (DIR dir).scale count) = s.tile pos) ∧
    (s.tile pos = WHITE →
      s.mTurn = PLAYERW ∧
      ((pos + (DIR dir).scale count).y = 7 →
        (Move s pos dir count).2.tile (pos + (DIR dir).scale count) = WHITE_KING) ∧
      ((pos + (DIR dir).scale count).y ≠ 7 →
        (Move s pos dir count).2.tile (pos + (DIR dir).scale count) = WHITE)) ∧
    (s.tile pos = BLACK →
      s.mTurn = PLAYERB ∧
      ((pos + (DIR dir).scale count).y = 0 →
        (Move s pos dir count).2.tile (pos + (DIR dir).scale count) = BLACK_KING) ∧
      ((pos + (DIR dir).scale count).y ≠ 0 →
        (Move s pos dir count).2.tile (pos + (DIR dir).scale count) = BLACK)) ∧
    (∀ q : Vector, s.tile q = WHITE_KING → (Move s pos dir count).2.tile q ≠ WHITE) ∧
    (∀ q : Vector, s.tile q = BLACK_KING → (Move s pos dir count).2.tile q ≠ BLACK) := by
  rw [Move_fst] at hok
  rw [Move_ok s pos dir count hok]
  simp only
  have hb := ((ValidateMove_ok_iff s pos dir count true s.mTurn).mp hok).1
  have hbb := (validateBasic_ok_iff s pos dir count s.mTurn).mp hb
  have hown := hbb.2.1
  have hempty := hbb.2.2.2.2.2.1
  have hform := fun q => (applyMove_tile s pos dir count q).trans
    (relocate_tile s pos dir count s.mTurn hb q)
  have hsize : SIZE - 1 = 7 := by decide
  have hwb : PLAYERW ≠ PLAYERB := by decide
  unfold GetPlayerForTile at hown
  refine ⟨?_, ?_, ?_, ?_, ?_⟩
  · intro hk
    rw [hform, if_pos rfl]
    rcases hk with hk | hk
    · rw [hk] at hown ⊢
      simp only at hown
      rw [← hown]
      split_ifs with h1 h2
      · rfl
      · exact absurd h2.2 hwb
      · rfl
    · rw [hk] at hown ⊢
      simp only at hown
      rw [← hown]
      split_ifs with h1 h2
      · exact absurd h1.2.symm hwb
      · rfl
      · rfl
  · intro hm
    rw [hm] at hown
    simp only at hown
    refine ⟨hown.symm, ?_, ?_⟩
    · intro h7
      rw [hform, if_pos rfl, if_pos ⟨by rw [hsize]; exact h7, hown.symm⟩]
    · intro h7
      rw [hform, if_pos rfl, if_neg (by rw [hsize]; exact fun h => h7 h.1),
        if_neg (by rw [← hown]; exact fun h => hwb h.2), hm]
  · intro hm
    rw [hm] at hown
    simp only at hown
    refine ⟨hown.symm, ?_, ?_⟩
    · intro h0
      rw [hform, if_pos rfl, if_neg (by rw [← hown]; exact fun h => hwb h.2.symm),
        if_pos ⟨h0, hown.symm⟩]
    · intro h0
      rw [hform, if_pos rfl, if_neg (by rw [← hown]; exact fun h => hwb h.2.symm),
        if_neg (fun h => h0 h.1), hm]
  · intro q hq
    rw [hform]
    split_ifs with h1 h2 h3 h4 h5
    · exact absurd ((tile_congr_index s q _ h1).symm.trans hq) (by rw [hempty]; decide)
    · exact absurd ((tile_congr_index s q _ h1).symm.trans hq) (by rw [hempty]; decide)
    · exact absurd ((tile_congr_index s q _ h1).symm.trans hq) (by rw [hempty]; decide)
    · decide
    · decide
    · rw [hq]; decide
  · intro q hq
    rw [hform]
    split_ifs with h1 h2 h3 h4 h5
    · exact absurd ((tile_congr_index s q _ h1).symm.trans hq) (by rw [hempty]; decide)
    · exact absurd ((tile_congr_index s q _ h1).symm.trans hq) (by rw [hempty]; decide)
    · exact absurd ((tile_congr_index s q _ h1).symm.trans hq) (by rw [hempty]; decide)
    · decide
    · decide
    · rw [hq]; decide

/-- C10 at the jump E6-C8 of `boardBeforeCrown`: the black man lands on row 0 and
is a black king afterwards. -/
theorem crowning_and_king_persistence_witness :
    (Move boardBeforeCrown ⟨4, 2⟩ 0 2).1 = .ok () ∧
    boardBeforeCrown.tile ⟨4, 2⟩ = BLACK ∧
    ((⟨4, 2⟩ : Vector) + (DIR 0).scale 2).y = 0 ∧
    (Move boardBeforeCrown ⟨4, 2⟩ 0 2).2.tile (⟨4, 2⟩ + (DIR 0).scale 2) = BLACK_KING :=
  ⟨by decide, by decide, by decide,
    ((crowning_and_king_persistence boardBeforeCrown ⟨4, 2⟩ 0 2 (by decide)).2.2.1
      (by decide)).2.1 (by decide)⟩

/-- C11: after a successful `Move` with step count 2 the jumped tile, which held a
piece of the opponent of the player to move, is empty; when black moved the
white-captured counter is one higher and the black-captured counter unchanged, when
white moved the black-captured counter is one higher and the white-captured counter
unchanged, so the counter of the captured colour goes up by one; and every tile of
the board other than origin, jumped tile and destination is unchanged. -/
theorem capture_effects (s : Board) (pos : Vector) (dir : Int)
    (hok : (Move s pos dir 2).1 = .ok ()) :
    GetPlayerForTile s (pos + DIR dir) = (if s.mTurn = PLAYERW then PLAYERB else PLAYERW) ∧
    s.tile (pos + DIR dir) ≠ EMPTY ∧
    (Move s pos dir 2).2.tile (pos + DIR dir) = EMPTY ∧
    (s.mTurn = PLAYERB →
      (Move s pos dir 2).2.mWhiteCaptured = s.mWhiteCaptured + 1 ∧
      (Move s pos dir 2).2.mBlackCaptured = s.mBlackCaptured) ∧
    (s.mTurn = PLAYERW →
      (Move s pos dir 2).2.mBlackCaptured = s.mBlackCaptured + 1 ∧
      (Move s pos dir 2).2.mWhiteCaptured = s.mWhiteCaptured) ∧
    (GetPlayerForTile s (pos + DIR dir) = PLAYERW →
      (Move s pos dir 2).2.mWhiteCaptured = s.mWhiteCaptured + 1 ∧
      (Move s pos dir 2).2.mBlackCaptured = s.mBlackCaptured) ∧
    (GetPlayerForTile s (pos + DIR dir) = PLAYERB →
      (Move s pos dir 2).2.mBlackCaptured = s.mBlackCaptured + 1 ∧
      (Move s pos dir 2).2.mWhiteCaptured = s.mWhiteCaptured) ∧
    (∀ q : Vector, IsInBounds q = true → q ≠ pos → q ≠ pos + DIR dir →
      q ≠ pos + (DIR dir).scale 2 → (Move s pos dir 2).2.tile q = s.tile q) := by
  rw [Move_fst] at hok
  rw [Move_ok s pos dir 2 hok]
  simp only
  have hb := ((ValidateMove_ok_iff s pos dir 2 true s.mTurn).mp hok).1
  have hbb := (validateBasic_ok_iff s pos dir 2 s.mTurn).mp hb
  obtain ⟨hp, hdest, hmid, hne1, hne2, hne3⟩ := geometry_of_valid s pos dir 2 s.mTurn hb
  have hown := hbb.2.2.2.2.2.2 rfl
  have hform := fun q => (applyMove_tile s pos dir 2 q).trans
    (relocate_tile s pos dir 2 s.mTurn hb q)
  have hcb := (applyMove_counters s pos dir 2).1.trans (relocate_counters s pos dir 2).1
  have hcw := (applyMove_counters s pos dir 2).2.trans (relocate_counters s pos dir 2).2
  have hwb : PLAYERW ≠ PLAYERB := by decide
  have hblack : s.mTurn = PLAYERB →
      (applyMove s pos dir 2).mWhiteCaptured = s.mWhiteCaptured + 1 ∧
      (applyMove s pos dir 2).mBlackCaptured = s.mBlackCaptured := by
    intro ht
    have hnw : ¬ s.mTurn = PLAYERW := by rw [ht]; exact fun h => hwb h.symm
    rw [hcb, hcw]
    simp [hnw]
  have hwhite : s.mTurn = PLAYERW →
      (applyMove s pos dir 2).mBlackCaptured = s.mBlackCaptured + 1 ∧
      (applyMove s pos dir 2).mWhiteCaptured = s.mWhiteCaptured := by
    intro ht
    rw [hcb, hcw]
    simp [ht]
  refine ⟨hown, ?_, ?_, hblack, hwhite, ?_, ?_, ?_⟩
  · intro he
    unfold GetPlayerForTile at hown
    rw [he] at hown
    simp only at hown
    split_ifs at hown <;> exact absurd hown (by decide)
  · rw [hform, if_neg (hne3 rfl), if_neg (hne2 rfl), if_pos ⟨rfl, rfl⟩]
  · intro hw
    rw [hw] at hown
    by_cases ht : s.mTurn = PLAYERW
    · rw [if_pos ht] at hown
      exact absurd hown hwb
    · rw [hcb, hcw]
      simp [ht]
  · intro hbk
    rw [hbk] at hown
    by_cases ht : s.mTurn = PLAYERW
    · exact hwhite ht
    · rw [if_neg ht] at hown
      exact absurd hown.symm hwb
  · intro q hq h1 h2 h3
    have i1 : tileIndex q.x q.y ≠ tileIndex pos.x pos.y :=
      fun h => h1 (tileIndex_inj hq hp h)
    have i2 : tileIndex q.x q.y ≠ tileIndex (pos + DIR dir).x (pos + DIR dir).y :=
      fun h => h2 (tileIndex_inj hq (hmid rfl) h)
    have i3 : tileIndex q.x q.y
        ≠ tileIndex (pos + (DIR dir).scale 2).x (pos + (DIR dir).scale 2).y :=
      fun h => h3 (tileIndex_inj hq hdest h)
    rw [hform, if_neg i3, if_neg i1, if_neg (fun h => i2 h.2)]

/-- C11 at the jump A6xB5 of `boardForkedJump`: white moved, the black man on B5 is
gone and the black-captured counter went from 0 to 1. -/
theorem capture_effects_witness :
    (Move boardForkedJump ⟨0, 2⟩ 3 2).1 = .ok () ∧
    boardForkedJump.mTurn = PLAYERW ∧
    boardForkedJump.mBlackCaptured = 0 ∧
    (Move boardForkedJump ⟨0, 2⟩ 3 2).2.tile (⟨0, 2⟩ + DIR 3) = EMPTY ∧
    (Move boardForkedJump ⟨0, 2⟩ 3 2).2.mBlackCaptured = boardForkedJump.mBlackCaptured + 1 ∧
    (Move boardForkedJump ⟨0, 2⟩ 3 2).2.mWhiteCaptured = boardForkedJump.mWhiteCaptured :=
  ⟨by decide, by decide, by decide,
    (capture_effects boardForkedJump ⟨0, 2⟩ 3 (by decide)).2.2.1,
    ((capture_effects boardForkedJump ⟨0, 2⟩ 3 (by decide)).2.2.2.2.1 (by decide)).1,
    ((capture_effects boardForkedJump ⟨0, 2⟩ 3 (by decide)).2.2.2.2.1 (by decide)).2⟩

/-- C12: after a successful `Move` with step count 1 the origin is empty; the
destination holds the moved piece, or the king of its colour when a white man landed
on row 7 or a black man on row 0; every other tile of the board is unchanged; both
capture counters are unchanged; the forced-jump set is empty; and the turn has
passed from black to white or from white to black. -/
theorem step_effects (s : Board) (pos : Vector) (dir : Int)
    (hok : (Move s pos dir 1).1 = .ok ()) :
    (Move s pos dir 1).2.tile pos = EMPTY ∧
    (s.tile pos = WHITE → (pos + DIR dir).y = 7 →
      (Move s pos dir 1).2.tile (pos + DIR dir) = WHITE_KING) ∧
    (s.tile pos = BLACK → (pos + DIR dir).y = 0 →
      (Move s pos dir 1).2.tile (pos + DIR dir) = BLACK_KING) ∧
    (¬ (s.tile pos = WHITE ∧ (pos + DIR dir).y = 7) →
      ¬ (s.tile pos = BLACK ∧ (pos + DIR dir).y = 0) →
      (Move s pos dir 1).2.tile (pos + DIR dir) = s.tile pos) ∧
    (∀ q : Vector, IsInBounds q = true → q ≠ pos → q ≠ pos + DIR dir →
      (Move s pos dir 1).2.tile q = s.tile q) ∧
    (Move s pos dir 1).2.mBlackCaptured = s.mBlackCaptured ∧
    (Move s pos dir 1).2.mWhiteCaptured = s.mWhiteCaptured ∧
    (Move s pos dir 1).2.mForcedJumps = [] ∧
    (s.mTurn = PLAYERB → (Move s pos dir 1).2.mTurn = PLAYERW) ∧
    (s.mTurn = PLAYERW → (Move s pos dir 1).2.mTurn = PLAYERB) ∧
    (s.tile pos ≠ EMPTY → (Move s pos dir 1).2.mTurn ≠ s.mTurn) := by
  rw [Move_fst] at hok
  rw [Move_ok s pos dir 1 hok]
  simp only
  have hb := ((ValidateMove_ok_iff s pos dir 1 true s.mTurn).mp hok).1
  have hbb := (validateBasic_ok_iff s pos dir 1 s.mTurn).mp hb
  obtain ⟨hp, hdest, _, hne1, _, _⟩ := geometry_of_valid s pos dir 1 s.mTurn hb
  have hown := hbb.2.1
  have hform := fun q => (applyMove_tile s pos dir 1 q).trans
    (relocate_tile s pos dir 1 s.mTurn hb q)
  have hcb := (applyMove_counters s pos dir 1).1.trans (relocate_counters s pos dir 1).1
  have hcw := (applyMove_counters s pos dir 1).2.trans (relocate_counters s pos dir 1).2
  rw [scale_one] at hdest hne1 hform
  have hturn : (applyMove s pos dir 1).mTurn = if s.mTurn = PLAYERB then PLAYERW else PLAYERB := by
    rw [applyMove_step, passTurn_mTurn, relocate_mTurn]
  have hsize : SIZE - 1 = 7 := by decide
  have hwb : PLAYERW ≠ PLAYERB := by decide
  unfold GetPlayerForTile at hown
  refine ⟨?_, ?_, ?_, ?_, ?_, ?_, ?_, ?_, ?_, ?_, ?_⟩
  · rw [hform, if_neg (fun h => hne1 h.symm), if_pos rfl]
  · intro hm h7
    rw [hm] at hown
    simp only at hown
    rw [hform, if_pos rfl, if_pos ⟨by rw [hsize]; exact h7, hown.symm⟩]
  · intro hm h0
    rw [hm] at hown
    simp only at hown
    rw [hform, if_pos rfl, if_neg (by rw [← hown]; exact fun h => hwb h.2.symm),
      if_pos ⟨h0, hown.symm⟩]
  · intro hnw hnb
    rw [hform, if_pos rfl]
    rw [hsize]
    cases ht : s.tile pos with
    | EMPTY =>
      rw [ht] at hown
      simp only at hown
      rw [← hown]
      split_ifs with h1 h2
      · exact absurd h1.2 (by decide)
      · exact absurd h2.2 (by decide)
      · rfl
    | WHITE =>
      rw [ht] at hown hnw
      simp only at hown
      rw [← hown]
      split_ifs with h1 h2
      · exact absurd ⟨rfl, h1.1⟩ hnw
      · exact absurd h2.2 hwb
      · rfl
    | BLACK =>
      rw [ht] at hown hnb
      simp only at hown
      rw [← hown]
      split_ifs with h1 h2
      · exact absurd h1.2.symm hwb
      · exact absurd ⟨rfl, h2.1⟩ hnb
      · rfl
    | WHITE_KING =>
      rw [ht] at hown
      simp only at hown
      rw [← hown]
      split_ifs with h1 h2
      · rfl
      · exact absurd h2.2 hwb
      · rfl
    | BLACK_KING =>
      rw [ht] at hown
      simp only at hown
      rw [← hown]
      split_ifs with h1 h2
      · exact absurd h1.2.symm hwb
      · rfl
      · rfl
  · intro q hq h1 h2
    have i1 : tileIndex q.x q.y ≠ tileIndex pos.x pos.y :=
      fun h => h1 (tileIndex_inj hq hp h)
    have i2 : tileIndex q.x q.y ≠ tileIndex (pos + DIR dir).x (pos + DIR dir).y :=
      fun h => h2 (tileIndex_inj hq hdest h)
    rw [hform, if_neg i2, if_neg i1, if_neg (fun h => absurd h.1 (by decide))]
  · rw [hcb]; simp
  · rw [hcw]; simp
  · rw [applyMove_step]; exact passTurn_mForcedJumps _
  · intro ht
    rw [hturn, if_pos ht]
  · intro ht
    rw [hturn, if_neg (by rw [ht]; exact hwb)]
  · intro hne
    rw [hturn]
    cases ht : s.tile pos with
    | EMPTY => exact absurd ht hne
    | WHITE => rw [ht] at hown; simp only at hown; rw [← hown]; decide
    | BLACK => rw [ht] at hown; simp only at hown; rw [← hown]; decide
    | WHITE_KING => rw [ht] at hown; simp only at hown; rw [← hown]; decide
    | BLACK_KING => rw [ht] at hown; simp only at hown; rw [← hown]; decide

/-- C12 on the fresh board: black plays B3 to A4, `Move((1,5), UL, 1)`; the move
succeeds, the turn becomes white and no capture is recorded. -/
theorem step_effects_witness :
    Board.init.mTurn = PLAYERB ∧
    (Move Board.init ⟨1, 5⟩ 0 1).1 = .ok () ∧
    (Move Board.init ⟨1, 5⟩ 0 1).2.mTurn = PLAYERW ∧
    (Move Board.init ⟨1, 5⟩ 0 1).2.mBlackCaptured = 0 ∧
    (Move Board.init ⟨1, 5⟩ 0 1).2.mWhiteCaptured = 0 ∧
    (Move Board.init ⟨1, 5⟩ 0 1).2.tile ⟨1, 5⟩ = EMPTY ∧
    (Move Board.init ⟨1, 5⟩ 0 1).2.tile ⟨0, 4⟩ = BLACK ∧
    (Move Board.init ⟨1, 5⟩ 0 1).2.mForcedJumps = [] :=
  ⟨by decide, by decide,
    (step_effects Board.init ⟨1, 5⟩ 0 (by decide)).2.2.2.2.2.2.2.2.1 (by decide),
    by decide, by decide,
    (step_effects Board.init ⟨1, 5⟩ 0 (by decide)).1,
    by decide,
    (step_effects Board.init ⟨1, 5⟩ 0 (by decide)).2.2.2.2.2.2.2.1⟩

/-- C13: on the board made by the constructor, a tile `(x, y)` of the board holds a
white man iff `y <= 2` and `x + y` is even, a black man iff `y >= 5` and `x + y` is
even, and is empty otherwise; the grid holds 12 white men, 12 black men and no king;
black is to move, no victor is set, both capture counters are 0 and the forced-jump
set is empty. -/
theorem initial_board :
    (∀ p : Vector, IsInBounds p = true →
      (Board.init.tile p = WHITE ↔ p.y ≤ 2 ∧ (p.x + p.y) % 2 = 0) ∧
      (Board.init.tile p = BLACK ↔ p.y ≥ 5 ∧ (p.x + p.y) % 2 = 0) ∧
      (Board.init.tile p = EMPTY ↔ ¬ ((p.y ≤ 2 ∨ p.y ≥ 5) ∧ (p.x + p.y) % 2 = 0))) ∧
    Board.init.mBoard.cells.count WHITE = 12 ∧
    Board.init.mBoard.cells.count BLACK = 12 ∧
    Board.init.mBoard.cells.count WHITE_KING = 0 ∧
    Board.init.mBoard.cells.count BLACK_KING = 0 ∧
    Board.init.mBoard.cells.count EMPTY = 40 ∧
    Board.init.mTurn = PLAYERB ∧
    Board.init.mVictor = -1 ∧
    Board.init.mBlackCaptured = 0 ∧
    Board.init.mWhiteCaptured = 0 ∧
    Board.init.mForcedJumps = [] :=
  ⟨fun p hp => initial_tiles_on_positions p (mem_allPositions hp),
    by decide, by decide, by decide, by decide, by decide, by decide, by decide, by decide,
    by decide, by decide⟩

/-- C13 at the corner A8: tile `(0, 0)` is on the board and holds a white man. -/
theorem initial_board_witness :
    IsInBounds ⟨0, 0⟩ = true ∧ Board.init.tile ⟨0, 0⟩ = WHITE :=
  ⟨by decide, ((initial_board.1 ⟨0, 0⟩ (by decide)).1).mpr ⟨by decide, by decide⟩⟩

/-- C14: `GetValidMoves(player)` contains a triple iff its position is on the board
and owned by the player, its direction is in 0..3, its count is 1 or 2 and
`ValidateMove` with the jump rule accepts it for the player; no triple occurs twice
(`Nodup`), so a triple that is contained is contained exactly once;
the triples are in strictly increasing lexicographic order of row, column, direction
index and step count; and `HasValidMoves(player)` is true iff the list is
non-empty. -/
theorem valid_moves_enumeration (s : Board) (player : Int) :
    (∀ (pos : Vector) (d c : Int),
      (pos, d, c) ∈ GetValidMoves s player ↔
        IsInBounds pos = true ∧ GetPlayerForTile s pos = player ∧ (0 ≤ d ∧ d ≤ 3) ∧
        (c = 1 ∨ c = 2) ∧ ValidateMove s pos d c true player = .ok ()) ∧
    (GetValidMoves s player).Nodup ∧
    (GetValidMoves s player).Pairwise moveLess ∧
    (HasValidMoves s player = true ↔ GetValidMoves s player ≠ []) := by
  have hp := pairwise_GetValidMoves s player
  have hn : (GetValidMoves s player).Nodup := by
    refine hp.imp ?_
    intro a b hab heq
    rw [heq] at hab
    exact moveLess_irrefl b hab
  refine ⟨?_, hn, hp, ?_⟩
  · intro pos d c
    rw [mem_GetValidMoves, mem_allDirections]
    constructor
    · rintro ⟨h1, h2, h3, h4, h5⟩
      exact ⟨isInBounds_of_mem_allPositions h1, h2, ⟨h3.1, by omega⟩, h4, h5⟩
    · rintro ⟨h1, h2, h3, h4, h5⟩
      exact ⟨mem_allPositions h1, h2, ⟨h3.1, by omega⟩, h4, h5⟩
  · rw [← Bool.not_eq_false, Ne, ← HasValidMoves_eq_false_iff]

/-- C15: for a file character in 'A'..'H' and a rank character in '1'..'8',
`FromNotation` gives column `file - 'A'` and row `'8' - rank`, a position on the
board, and `ToNotation` of it is the token again; 'A' is column 0, '8' is row 0 and
'1' is row 7; for a position on the board `FromNotation(ToNotation(v)) = v`; and a
lower-case file letter parses to the position of its upper-case form. -/
theorem notation_round_trip :
    (∀ f r : Int, charCode 'A' ≤ f → f ≤ charCode 'H' → charCode '1' ≤ r → r ≤ charCode '8' →
      FromNotation [f, r] = ⟨f - charCode 'A', charCode '8' - r⟩ ∧
      IsInBounds (FromNotation [f, r]) = true ∧
      ToNotation (FromNotation [f, r]) = [f, r]) ∧
    FromNotation [charCode 'A', charCode '8'] = ⟨0, 0⟩ ∧
    FromNotation [charCode 'A', charCode '1'] = ⟨0, 7⟩ ∧
    FromNotation [charCode 'H', charCode '1'] = ⟨7, 7⟩ ∧
    (∀ v : Vector, IsInBounds v = true →
      ToNotation v = [charCode 'A' + v.x, charCode '8' - v.y] ∧
      FromNotation (ToNotation v) = v) ∧
    (∀ f r : Int, charCode 'A' ≤ f → f ≤ charCode 'H' →
      FromNotation [f + (charCode 'a' - charCode 'A'), r] = FromNotation [f, r]) := by
  obtain ⟨hA, hH, hZ, ha, h1, h8⟩ := charCode_values
  refine ⟨?_, by decide, by decide, by decide, ?_, ?_⟩
  · intro f r hf1 hf2 hr1 hr2
    rw [hA] at hf1
    rw [hH] at hf2
    rw [h1] at hr1
    rw [h8] at hr2
    have hfrom : FromNotation [f, r] = ⟨f - charCode 'A', charCode '8' - r⟩ := by
      unfold FromNotation
      simp only [List.getD_cons_zero, List.getD_cons_succ]
      rw [if_pos ⟨by rw [hA]; omega, by rw [hZ]; omega⟩]
    refine ⟨hfrom, ?_, ?_⟩
    · rw [hfrom, hA, h8]
      simp only [IsInBounds, SIZE, Bool.and_eq_true, decide_eq_true_eq]
      omega
    · rw [hfrom]
      unfold ToNotation narrowChar
      simp only [hA, h8]
      congr 1
      · omega
      · congr 1
        omega
  · intro v hv
    simp only [IsInBounds, SIZE, Bool.and_eq_true, decide_eq_true_eq] at hv
    obtain ⟨vx, vy⟩ := v
    simp only at hv
    have hto : ToNotation ⟨vx, vy⟩ = [charCode 'A' + vx, charCode '8' - vy] := by
      unfold ToNotation narrowChar
      simp only [hA, h8]
      congr 1
      · omega
      · congr 1
        omega
    refine ⟨hto, ?_⟩
    rw [hto]
    unfold FromNotation
    simp only [List.getD_cons_zero, List.getD_cons_succ]
    rw [if_pos ⟨by omega, by rw [hA, hZ]; omega⟩, Vector.mk.injEq]
    constructor <;> omega
  · intro f r hf1 hf2
    rw [hA] at hf1
    rw [hH] at hf2
    unfold FromNotation
    simp only [List.getD_cons_zero, List.getD_cons_succ]
    rw [if_neg (by rw [hA, hZ, ha]; omega), if_pos ⟨by rw [hA]; omega, by rw [hZ]; omega⟩,
      Vector.mk.injEq]
    constructor
    · omega
    · rfl

/-- C15 at the token "C4": it parses to column 2, row 4 and is printed back. -/
theorem notation_round_trip_witness :
    charCode 'A' ≤ charCode 'C' ∧ charCode 'C' ≤ charCode 'H' ∧
    charCode '1' ≤ charCode '4' ∧ charCode '4' ≤ charCode '8' ∧
    FromNotation [charCode 'C', charCode '4'] = ⟨2, 4⟩ ∧
    ToNotation (FromNotation [charCode 'C', charCode '4']) = [charCode 'C', charCode '4'] :=
  ⟨by decide, by decide, by decide, by decide, by decide,
    (notation_round_trip.1 (charCode 'C') (charCode '4') (by decide) (by decide) (by decide)
      (by decide)).2.2⟩

/-- C16: deriving the move from `start` to `end` fails iff the two absolute
differences differ or the displacement is zero, and then with "Invalid position.";
otherwise it returns a direction index in 0..3 and the count `|end.x - start.x| >= 1`
with `start + DIR[d] * count = end`; the final "Command could not be parsed." is
never thrown. -/
theorem move_derivation (start dest : Vector) :
    ((∃ e, deriveMove start dest = .error e) ↔
      (abs (dest.x - start.x) ≠ abs (dest.y - start.y) ∨
        (dest.x - start.x = 0 ∧ dest.y - start.y = 0))) ∧
    (∀ e, deriveMove start dest = .error e → e = .invalidPosition) ∧
    deriveMove start dest ≠ .error .notParsed ∧
    (∀ d c : Int, deriveMove start dest = .ok (d, c) →
      (0 ≤ d ∧ d ≤ 3) ∧ c = abs (dest.x - start.x) ∧ c ≥ 1 ∧
      start + (DIR d).scale c = dest) := by
  by_cases hcond : abs (dest.x - start.x) ≠ abs (dest.y - start.y) ∨ dest.x - start.x = 0
  · have herr := deriveMove_invalid start dest hcond
    rw [herr]
    refine ⟨?_, ?_, ?_, ?_⟩
    · constructor
      · intro _
        rcases hcond with h | h
        · exact Or.inl h
        · by_cases hd : abs (dest.x - start.x) = abs (dest.y - start.y)
          · right
            refine ⟨h, ?_⟩
            rw [h] at hd
            unfold abs at hd
            split_ifs at hd <;> omega
          · exact Or.inl hd
      · intro _
        exact ⟨_, rfl⟩
    · intro e he
      cases he
      rfl
    · intro h
      cases h
    · intro d c h
      cases h
  · have hd : abs (dest.x - start.x) = abs (dest.y - start.y) := by
      by_contra h
      exact hcond (Or.inl h)
    have h0 : dest.x - start.x ≠ 0 := fun h => hcond (Or.inr h)
    obtain ⟨d, hdr, hok, hend⟩ := deriveMove_diagonal start dest hd h0
    rw [hok]
    refine ⟨?_, ?_, ?_, ?_⟩
    · constructor
      · rintro ⟨e, he⟩
        cases he
      · rintro (h | ⟨h, _⟩)
        · exact absurd hd h
        · exact absurd h h0
    · intro e he
      cases he
    · intro h
      cases h
    · intro d' c' h
      cases h
      refine ⟨hdr, rfl, ?_, hend⟩
      unfold abs
      split_ifs <;> omega

/-- C17: a successful `Move` of a white man goes DL or DR and ends on the row
`origin row + stepCount`; a successful `Move` of a black man goes UL or UR and ends on
the row `origin row - stepCount`; and for a king the direction check passes, so no
call of `ValidateMove` on a king is rejected with "Movement is invalid for red." or
"Movement is invalid for black.". -/
theorem men_advance_kings_free (s : Board) (pos : Vector) (dir count : Int) :
    ((Move s pos dir count).1 = .ok () →
      (s.tile pos = WHITE →
        (dir = Direction.DL ∨ dir = Direction.DR) ∧
        (pos + (DIR dir).scale count).y = pos.y + count) ∧
      (s.tile pos = BLACK →
        (dir = Direction.UL ∨ dir = Direction.UR) ∧
        (pos + (DIR dir).scale count).y = pos.y - count)) ∧
    ((s.tile pos = WHITE_KING ∨ s.tile pos = BLACK_KING) →
      validateRank s pos dir = .ok () ∧
      ∀ (jump : Bool) (player : Int),
        ValidateMove s pos dir count jump player ≠ .error .invalidForRed ∧
        ValidateMove s pos dir count jump player ≠ .error .invalidForBlack) := by
  constructor
  · intro hok
    rw [Move_fst, ValidateMove_ok_iff, validateRank_ok_iff] at hok
    obtain ⟨_, _, hw, hb⟩ := hok
    constructor
    · intro ht
      refine ⟨hw ht, ?_⟩
      rcases hw ht with h | h <;> subst h <;>
        simp [add_y, Vector.scale, DIR, Direction.DL, Direction.DR]
    · intro ht
      refine ⟨hb ht, ?_⟩
      rcases hb ht with h | h <;> subst h <;>
        simp [add_y, Vector.scale, DIR, Direction.UL, Direction.UR] <;> omega
  · intro hk
    have hrank : validateRank s pos dir = .ok () := by
      unfold validateRank
      rcases hk with h | h <;> rw [h]
    refine ⟨hrank, ?_⟩
    intro jump player
    constructor
    · intro h
      have := rank_error_from_validateRank s pos dir count jump player _ (Or.inl rfl) h
      rw [hrank] at this
      cases this
    · intro h
      have := rank_error_from_validateRank s pos dir count jump player _ (Or.inr rfl) h
      rw [hrank] at this
      cases this

/-- C17 at the first move B3 to A4 of the fresh board, a black man going UL from
row 5 to row 4, and at the black king that stands on C8 after `boardBeforeCrown`. -/
theorem men_advance_kings_free_witness :
    (Move Board.init ⟨1, 5⟩ 0 1).1 = .ok () ∧
    Board.init.tile ⟨1, 5⟩ = BLACK ∧
    ((0 : Int) = Direction.UL ∨ (0 : Int) = Direction.UR) ∧
    ((⟨1, 5⟩ : Vector) + (DIR 0).scale 1).y = (⟨1, 5⟩ : Vector).y - 1 ∧
    (Move boardBeforeCrown ⟨4, 2⟩ 0 2).2.tile ⟨2, 0⟩ = BLACK_KING ∧
    validateRank (Move boardBeforeCrown ⟨4, 2⟩ 0 2).2 ⟨2, 0⟩ 3 = .ok () :=
  ⟨by decide, by decide,
    (((men_advance_kings_free Board.init ⟨1, 5⟩ 0 1).1 (by decide)).2 (by decide)).1,
    (((men_advance_kings_free Board.init ⟨1, 5⟩ 0 1).1 (by decide)).2 (by decide)).2,
    by decide,
    ((men_advance_kings_free (Move boardBeforeCrown ⟨4, 2⟩ 0 2).2 ⟨2, 0⟩ 3 1).2
      (Or.inr (by decide))).1⟩

/-- C18: in every state reachable from the fresh board the white pieces on the grid
plus the white-captured counter make 12, and so do the black pieces plus the
black-captured counter; a successful `Move` leaves the number of the mover's pieces
unchanged and takes one opposing piece off the grid when its step count is 2 and
none otherwise. -/
theorem piece_conservation (s : Board) (hr : Reachable s) :
    pieceCount isWhite s + s.mWhiteCaptured = 12 ∧
    pieceCount isBlack s + s.mBlackCaptured = 12 ∧
    (∀ (pos : Vector) (dir count : Int), (Move s pos dir count).1 = .ok () →
      (s.mTurn = PLAYERB ∨ s.mTurn = PLAYERW) ∧
      (s.mTurn = PLAYERB →
        pieceCount isBlack (Move s pos dir count).2 = pieceCount isBlack s ∧
        pieceCount isWhite (Move s pos dir count).2
          = pieceCount isWhite s - (if count = 2 then 1 else 0)) ∧
      (s.mTurn = PLAYERW →
        pieceCount isWhite (Move s pos dir count).2 = pieceCount isWhite s ∧
        pieceCount isBlack (Move s pos dir count).2
          = pieceCount isBlack s - (if count = 2 then 1 else 0))) := by
  obtain ⟨hw, hb⟩ := conserved_of_reachable s hr
  refine ⟨hw, hb, ?_⟩
  intro pos dir count hok
  rw [Move_fst] at hok
  rw [Move_ok s pos dir count hok]
  simp only
  have hbasic := ((ValidateMove_ok_iff s pos dir count true s.mTurn).mp hok).1
  obtain ⟨hW, hB⟩ := pieceCount_after_move s pos dir count hbasic
  have hwb : PLAYERW ≠ PLAYERB := by decide
  refine ⟨(settled_of_reachable s hr).1, ?_, ?_⟩
  · intro ht
    have hnw : ¬ s.mTurn = PLAYERW := by rw [ht]; exact fun h => hwb h.symm
    simp only [hnw, and_false, if_false, add_zero, not_false_eq_true, and_true] at hW hB
    exact ⟨hB, by omega⟩
  · intro ht
    simp only [ht, not_true_eq_false, and_false, if_false, add_zero, and_true] at hW hB
    exact ⟨hW, by omega⟩

/-- C18 at the jump A6xB5 of `boardForkedJump`: white keeps its 12 pieces and black
goes from 12 to 11. -/
theorem piece_conservation_witness :
    Reachable boardForkedJump ∧
    (Move boardForkedJump ⟨0, 2⟩ 3 2).1 = .ok () ∧
    boardForkedJump.mTurn = PLAYERW ∧
    pieceCount isBlack boardForkedJump = 12 ∧
    pieceCount isWhite (Move boardForkedJump ⟨0, 2⟩ 3 2).2 = pieceCount isWhite boardForkedJump ∧
    pieceCount isBlack (Move boardForkedJump ⟨0, 2⟩ 3 2).2
      = pieceCount isBlack boardForkedJump - (if (2 : Int) = 2 then 1 else 0) :=
  ⟨reachable_playMoves _ _ Reachable.init, by decide, by decide, by decide,
    ((((piece_conservation boardForkedJump (reachable_playMoves _ _ Reachable.init)).2.2
      ⟨0, 2⟩ 3 2 (by decide)).2.2) (by decide)).1,
    ((((piece_conservation boardForkedJump (reachable_playMoves _ _ Reachable.init)).2.2
      ⟨0, 2⟩ 3 2 (by decide)).2.2) (by decide)).2⟩

/-- C19: in every state reachable from the fresh board in which no victor is set,
`GetValidMoves(mTurn)` is non-empty and some `Move` is accepted, also when the
forced-jump set is non-empty. -/
theorem never_stuck_in_progress (s : Board) (hr : Reachable s) (hv : s.mVictor = -1) :
    GetValidMoves s s.mTurn ≠ [] ∧
    HasValidMoves s s.mTurn = true ∧
    ∃ (pos : Vector) (dir count : Int), (Move s pos dir count).1 = .ok () := by
  have h := notStuck_of_reachable s hr hv
  refine ⟨?_, h, ?_⟩
  · intro h0
    rw [← HasValidMoves_eq_false_iff, h] at h0
    cases h0
  · obtain ⟨pos, d, c, hok⟩ := (HasValidMoves_eq_true_iff s s.mTurn).mp h
    exact ⟨pos, d, c, by rw [Move_fst]; exact hok⟩

/-- C19 in the middle of a double jump: on `boardMidJump` the forced-jump set is
non-empty, no victor is set and white has a move. -/
theorem never_stuck_in_progress_witness :
    Reachable boardMidJump ∧ boardMidJump.mVictor = -1 ∧ boardMidJump.mForcedJumps ≠ [] ∧
    GetValidMoves boardMidJump boardMidJump.mTurn ≠ [] :=
  ⟨reachable_playMoves _ _ Reachable.init, by decide, by decide,
    (never_stuck_in_progress boardMidJump (reachable_playMoves _ _ Reachable.init)
      (by decide)).1⟩

/-- C20: with every tile access checked, `ValidateMove`, `GetJumps`, `GetValidMoves` and
`Move` return, for every state and every argument, exactly what the unchecked
functions return: no read or write is made at a position that is not on the board.
The checked accesses fail off the board; a position on the board has
`0 <= x < 8`, `0 <= y < 8` and an index `y * 8 + x` in 0..63; and the jumped tile of
a 2-step move is on the board when its origin and destination are. -/
theorem grid_accesses_in_bounds (s : Board) :
    (∀ (pos : Vector) (dir count : Int) (jump : Bool) (player : Int),
      ValidateMoveChecked s pos dir count jump player
        = some (ValidateMove s pos dir count jump player)) ∧
    (∀ pos : Vector, GetJumpsChecked s pos = some (GetJumps s pos)) ∧
    (∀ player : Int, GetValidMovesChecked s player = some (GetValidMoves s player)) ∧
    (∀ (pos : Vector) (dir count : Int),
      MoveChecked s pos dir count = some (Move s pos dir count)) ∧
    (∀ (p : Vector) (v : Piece), IsInBounds p = false →
      readChecked s p = none ∧ writeChecked s p v = none) ∧
    (∀ p : Vector, IsInBounds p = true ↔ (0 ≤ p.x ∧ p.x < 8 ∧ 0 ≤ p.y ∧ p.y < 8)) ∧
    (∀ p : Vector, IsInBounds p = true →
      0 ≤ tileIndex p.x p.y ∧ tileIndex p.x p.y ≤ 63) ∧
    (∀ (pos : Vector) (dir : Int), (0 ≤ dir ∧ dir < 4) → IsInBounds pos = true →
      IsInBounds (pos + (DIR dir).scale 2) = true → IsInBounds (pos + DIR dir) = true) := by
  refine ⟨ValidateMoveChecked_eq s, GetJumpsChecked_eq s, GetValidMovesChecked_eq s,
    MoveChecked_eq s, ?_, ?_, ?_, ?_⟩
  · intro p v hp
    unfold readChecked writeChecked
    rw [hp]
    exact ⟨rfl, rfl⟩
  · intro p
    simp only [IsInBounds, SIZE, Bool.and_eq_true, decide_eq_true_eq]
    omega
  · intro p hp
    have := tileIndex_range hp
    omega
  · intro pos dir hd hp he
    exact midpoint_in_bounds pos dir hd hp he

/-- C20 on the fresh board: the checked `Move` of B3 to A4 returns the result of
`Move`, and a read just off the board fails. -/
theorem grid_accesses_in_bounds_witness :
    MoveChecked Board.init ⟨1, 5⟩ 0 1 = some (Move Board.init ⟨1, 5⟩ 0 1) ∧
    IsInBounds ⟨8, 0⟩ = false ∧
    readChecked Board.init ⟨8, 0⟩ = none :=
  ⟨(grid_accesses_in_bounds Board.init).2.2.2.1 ⟨1, 5⟩ 0 1, by decide,
    ((grid_accesses_in_bounds Board.init).2.2.2.2.1 ⟨8, 0⟩ EMPTY (by decide)).1⟩

end Checkers
